import Mathlib

/-!
# GRASP-on-ISS: tracker interface and texture cache

A shallow embedding of `Source Code/Hardware/Trackers.h` (the tracker classes,
their constructors and their member-function declarations) and of
`Source Code/OpenGLObjects/OpenGLTextures.cpp` (the texture filename cache
maintained by `Texture::Define`), with the properties proved about them.

Conventions of the embedding:
* a C++ object is a structure; a constructor is a function from the raw object
  (the indeterminate memory it is built in) to the constructed object, so that
  members the constructor does not initialise keep an arbitrary value;
* `double` quantities are carried as rationals; the decimal literal `0.005`
  is the rational `5/1000`;
* an array is a function from indices to elements; where the source accesses
  an array, the index is checked against the declared dimension explicitly.
-/

namespace Grasp

/-! ## Constants of `Trackers.h` -/

def N_MARKERS : Nat := 24
def N_CODAS : Nat := 2

def DEX_MAX_CODAS : Nat := 8
def DEX_MAX_MARKER_FRAMES : Nat := 20000

/-! ## Structures that hold the collected data -/

/-- The `Vector3` of `VectorsMixin.h`: three coordinates. -/
abbrev Vector3 := Fin 3 → ℚ

structure CodaMarker where
  position : Vector3
  visibility : Bool

structure CodaFrame where
  marker : Fin N_MARKERS → CodaMarker
  time : ℚ

/-! ## `class DexTracker` -/

structure DexTracker where
  nCodas : Int
  nMarkers : Int
  nAcqFrames : Int
  samplePeriod : ℚ

/-- The constructor
`DexTracker() : nCodas( N_CODAS ), nMarkers( N_MARKERS ), samplePeriod( 0.005 ) {}`.
`nAcqFrames` is not initialised and keeps the value of the raw object. -/
def DexTracker.ctor (raw : DexTracker) : DexTracker :=
  { raw with nCodas := N_CODAS, nMarkers := N_MARKERS, samplePeriod := 0.005 }

/-! ## `class DexMouseTracker : public DexTracker` -/

/-- A window handle; `NULL` is the null handle. -/
abbrev HWND := Nat

def NULL : HWND := 0

structure DexMouseTracker extends DexTracker where
  acquisitionOn : Bool
  overrun : Bool
  duration : ℚ
  nPolled : Int
  dlg : HWND
  fp : Nat
  polledMarkerFrames : Nat → CodaFrame

/-- The constructor
`DexMouseTracker( HWND dlg = NULL ) : acquisitionOn(false), overrun(false) { this->dlg = dlg; }`.
The base sub-object is built by the default constructor of `DexTracker`. -/
def DexMouseTracker.ctor (raw : DexMouseTracker) (dlg : HWND := NULL) : DexMouseTracker :=
  { raw with
    toDexTracker := DexTracker.ctor raw.toDexTracker
    acquisitionOn := false
    overrun := false
    dlg := dlg }

/-! ## `class DexRTnetTracker : public DexTracker` -/

/-- The sampling rates of the Coda RTnet server that a `DeviceOptionsCodaMode`
can name. The vendor header is not among the sources; the constant is named as
the constructor names it and its frequency is the one its comment gives
("Marker acquistion rate (200Hz)"). -/
inductive CodaRateMode where
  | CODANET_CODA_MODE_100
  | CODANET_CODA_MODE_200
  | CODANET_CODA_MODE_400
  | CODANET_CODA_MODE_800
  deriving DecidableEq, Repr

/-- The frequency, in Hz, that a rate mode stands for. -/
def CodaRateMode.rateHz : CodaRateMode → Nat
  | .CODANET_CODA_MODE_100 => 100
  | .CODANET_CODA_MODE_200 => 200
  | .CODANET_CODA_MODE_400 => 400
  | .CODANET_CODA_MODE_800 => 800

/-- The vendor's `DeviceOptionsCodaMode( rate, decimation, external sync )`, in
the order of the constructor's comment: "Marker acquistion rate (200Hz), down
sampling (none) and external sync (no)". -/
structure DeviceOptionsCodaMode where
  rateMode : CodaRateMode
  decimation : Nat
  externalSync : Bool
  deriving DecidableEq, Repr

/-- The packet-delivery modes of the Coda RTnet server: the combined marker
coordinates, the coordinates of each unit separately, or both. -/
inductive DeviceOptionsCodaPacketMode where
  | CODANET_CODAPACKETMODE_COMBINED_COORD
  | CODANET_CODAPACKETMODE_SEPARATE_COORD
  | CODANET_CODAPACKETMODE_SEPARATE_AND_COMBINED_COORD
  deriving DecidableEq, Repr

structure DexRTnetTracker extends DexTracker where
  serverAddress : String
  serverPort : Nat
  cx1Device : Int
  maxRetries : Int
  overrun : Bool
  codaConfig : Int
  mode : DeviceOptionsCodaMode
  packet_mode : DeviceOptionsCodaPacketMode
  recordedMarkerFrames : Nat → Nat → CodaFrame

/-- The constructor `DexRTnetTracker( void )` with its member initialisers
`serverAddress("192.168.1.1")`, `serverPort(10111)`,
`mode( CODANET_CODA_MODE_200, 1, false )`,
`packet_mode( CODANET_CODAPACKETMODE_SEPARATE_AND_COMBINED_COORD )`,
`codaConfig(1)`, `cx1Device(1)`, `maxRetries(5)`. It takes no argument; the
members it does not name (`overrun`, the recorded frames) keep the value of the
raw object. -/
def DexRTnetTracker.ctor (raw : DexRTnetTracker) : DexRTnetTracker :=
  { raw with
    toDexTracker := DexTracker.ctor raw.toDexTracker
    serverAddress := "192.168.1.1"
    serverPort := 10111
    mode := ⟨.CODANET_CODA_MODE_200, 1, false⟩
    packet_mode := .CODANET_CODAPACKETMODE_SEPARATE_AND_COMBINED_COORD
    codaConfig := 1
    cx1Device := 1
    maxRetries := 5 }

/-- The dimensions of `CodaFrame recordedMarkerFrames[DEX_MAX_CODAS][DEX_MAX_MARKER_FRAMES]`:
the number of unit rows and the number of frames of a row. -/
def recordedMarkerFrames_dims : Nat × Nat := (DEX_MAX_CODAS, DEX_MAX_MARKER_FRAMES)

/-- Whether the access `recordedMarkerFrames[u][k]` lies inside the array. -/
def recordedMarkerFrames_inBounds (u k : Int) : Prop :=
  0 ≤ u ∧ u < recordedMarkerFrames_dims.1 ∧ 0 ≤ k ∧ k < recordedMarkerFrames_dims.2

instance (u k : Int) : Decidable (recordedMarkerFrames_inBounds u k) := by
  unfold recordedMarkerFrames_inBounds; infer_instance

/-- A raw `DexRTnetTracker` object whose memory is all zero. -/
def DexRTnetTracker.zeroed : DexRTnetTracker :=
  { nCodas := 0, nMarkers := 0, nAcqFrames := 0, samplePeriod := 0,
    serverAddress := "", serverPort := 0, cx1Device := 0, maxRetries := 0,
    overrun := false, codaConfig := 0,
    mode := ⟨.CODANET_CODA_MODE_100, 0, false⟩,
    packet_mode := .CODANET_CODAPACKETMODE_COMBINED_COORD,
    recordedMarkerFrames := fun _ _ => ⟨fun _ => ⟨fun _ => 0, false⟩, 0⟩ }

/-! ## Member-function declarations and virtual dispatch

The three class definitions of `Trackers.h`, as the lists of member functions
each one declares. A member function of a derived class overrides the virtual
function of the base class that has the same name and the same parameter list;
a call through the `DexTracker` interface runs the final overrider. -/

inductive TrackerClass where
  | DexTracker
  | DexMouseTracker
  | DexRTnetTracker
  deriving DecidableEq, Repr

/-- One member-function declaration: whether it carries `virtual`, its return
type, its name and the types of its parameters. -/
structure MemberFunction where
  isVirtual : Bool
  returnType : String
  name : String
  params : List String
  deriving DecidableEq, Repr

/-- The base class of a class, if it has one. -/
def TrackerClass.base : TrackerClass → Option TrackerClass
  | .DexTracker => none
  | .DexMouseTracker => some .DexTracker
  | .DexRTnetTracker => some .DexTracker

/-- The member functions each class declares, in the order of the header. -/
def TrackerClass.declares : TrackerClass → List MemberFunction
  | .DexTracker =>
    [ ⟨true, "void", "Initialize", []⟩,
      ⟨true, "int", "Update", []⟩,
      ⟨true, "void", "Quit", []⟩,
      ⟨true, "void", "StartAcquisition", ["float"]⟩,
      ⟨true, "void", "StopAcquisition", []⟩,
      ⟨true, "bool", "CheckAcquisitionOverrun", []⟩,
      ⟨true, "int", "RetrieveMarkerFrames", ["CodaFrame[]", "int", "int"]⟩,
      ⟨true, "bool", "GetCurrentMarkerFrame", ["CodaFrame&"]⟩,
      ⟨true, "bool", "GetCurrentMarkerFrameUnit", ["CodaFrame&", "int"]⟩,
      ⟨true, "bool", "GetCurrentMarkerFrameIntrinsic", ["CodaFrame&", "int"]⟩,
      ⟨true, "double", "GetSamplePeriod", []⟩,
      ⟨true, "int", "GetNumberOfCodas", []⟩,
      ⟨true, "bool", "GetAcquisitionState", []⟩,
      ⟨true, "void", "GetUnitPlacement", ["int", "Vector3&", "Quaternion&"]⟩,
      ⟨true, "void", "GetUnitTransform", ["int", "Vector3&", "Matrix3x3&"]⟩,
      ⟨true, "int", "PerformAlignment", ["int", "int", "int", "int", "int"]⟩,
      ⟨false, "void", "CopyMarkerFrame", ["CodaFrame&", "CodaFrame&"]⟩ ]
  | .DexMouseTracker =>
    [ ⟨false, "void", "Initialize", []⟩,
      ⟨false, "void", "Quit", []⟩,
      ⟨false, "int", "Update", []⟩,
      ⟨false, "void", "StartAcquisition", ["float"]⟩,
      ⟨false, "void", "StopAcquisition", []⟩,
      ⟨false, "bool", "GetAcquisitionState", []⟩,
      ⟨false, "bool", "CheckOverrun", []⟩,
      ⟨false, "int", "RetrieveMarkerFrames", ["CodaFrame[]", "int", "int"]⟩,
      ⟨false, "bool", "GetCurrentMarkerFrame", ["CodaFrame&"]⟩,
      ⟨false, "bool", "GetCurrentMarkerFrameUnit", ["CodaFrame&", "int"]⟩,
      ⟨false, "void", "GetUnitTransform", ["int", "Vector3&", "Matrix3x3&"]⟩,
      ⟨false, "int", "PerformAlignment", ["int", "int", "int", "int", "int"]⟩ ]
  | .DexRTnetTracker =>
    [ ⟨false, "void", "print_network_error", ["const NetworkException&"]⟩,
      ⟨false, "void", "print_devicestatusarray_errors", ["const DeviceStatusArray&"]⟩,
      ⟨false, "int", "print_alignment_status", ["const DWORD*", "const DeviceInfoAlignment&"]⟩,
      ⟨false, "void", "Initialize", []⟩,
      ⟨false, "int", "Update", []⟩,
      ⟨false, "void", "StartAcquisition", ["float"]⟩,
      ⟨false, "void", "StopAcquisition", []⟩,
      ⟨false, "bool", "CheckAcquisitionOverrun", []⟩,
      ⟨false, "bool", "GetAcquisitionState", []⟩,
      ⟨false, "int", "GetNumberOfCodas", []⟩,
      ⟨false, "int", "RetrieveMarkerFrames", ["CodaFrame[]", "int", "int"]⟩,
      ⟨false, "bool", "GetCurrentMarkerFrame", ["CodaFrame&"]⟩,
      ⟨false, "void", "GetUnitTransform", ["int", "Vector3&", "Matrix3x3&"]⟩,
      ⟨false, "int", "PerformAlignment", ["int", "int", "int", "int", "int"]⟩ ]

/-- Whether class `c` itself declares a member function `name( params )`. -/
def TrackerClass.declaresFn (c : TrackerClass) (name : String) (params : List String) : Bool :=
  c.declares.any fun m => m.name == name && m.params == params

/-- Whether `name( params )` is a virtual function of the `DexTracker`
interface. -/
def isInterfaceFn (name : String) (params : List String) : Bool :=
  TrackerClass.DexTracker.declares.any fun m =>
    m.isVirtual && m.name == name && m.params == params

/-- The class whose implementation runs when `name( params )` is called through
the `DexTracker` interface on an object of dynamic class `c`: the object's own
class when it declares a member with that name and parameter list, its base
class otherwise; `none` when the interface has no such virtual function. -/
def finalOverrider (c : TrackerClass) (name : String) (params : List String) :
    Option TrackerClass :=
  if isInterfaceFn name params then
    if c.declaresFn name params then some c
    else match c.base with
      | some b => some b
      | none => some c
  else none

/-- The data members declared under `private:`, with the class that declares
each one. A private member is accessible from the member functions of the class
that declares it only. -/
def privateMembers : List (String × TrackerClass) :=
  [ ("acquisitionOn", .DexMouseTracker), ("overrun", .DexMouseTracker),
    ("acquisitionTimer", .DexMouseTracker), ("duration", .DexMouseTracker),
    ("nPolled", .DexMouseTracker), ("dlg", .DexMouseTracker), ("fp", .DexMouseTracker),
    ("polledMarkerFrames", .DexMouseTracker),
    ("serverAddress", .DexRTnetTracker), ("serverPort", .DexRTnetTracker),
    ("cx1Device", .DexRTnetTracker), ("maxRetries", .DexRTnetTracker),
    ("overrun", .DexRTnetTracker), ("packet", .DexRTnetTracker),
    ("cl", .DexRTnetTracker), ("codaConfig", .DexRTnetTracker),
    ("mode", .DexRTnetTracker), ("packet_mode", .DexRTnetTracker),
    ("decode3D", .DexRTnetTracker), ("decodeADC", .DexRTnetTracker),
    ("discover", .DexRTnetTracker), ("configs", .DexRTnetTracker),
    ("stream", .DexRTnetTracker), ("devices", .DexRTnetTracker),
    ("recordedMarkerFrames", .DexRTnetTracker) ]

/-- Whether a member function of class `impl` may name the private member
`member` of class `owner`. -/
def canAccessPrivate (impl : TrackerClass) (member : String) (owner : TrackerClass) : Bool :=
  privateMembers.contains (member, owner) && impl == owner

/-! ## Acquisition buffers of the hardware-backed tracker

`Trackers.h` declares `StartAcquisition`, `StopAcquisition`, `Update` and
`RetrieveMarkerFrames` of `DexRTnetTracker`; the file that defines them
(`DexRTnetTracker.cpp`) is not among the sources. The operations below follow
the specification of the tracker contract and of the buffering step. The clock
of a session (its start time, the time elapsed) is left out: the operations
below do not depend on it. -/

/-- Modelled from the spec: the state of the hardware-backed tracker between
calls (the missing part is the session state kept by `DexRTnetTracker.cpp`).
Besides the members of the header (`recordedMarkerFrames`, `overrun`) it holds
the on/off flag of the acquisition session, its requested maximum duration
and, for each unit, the number of frames recorded for that unit in the
session. -/
structure RTnetAcquisition where
  tracker : DexRTnetTracker
  acquisitionOn : Bool
  maxDuration : ℚ
  nFrames : Nat → Nat

/-- Modelled from the spec: `DexRTnetTracker::StartAcquisition( max_duration )`,
which is missing from the sources: "begins a new Acquisition Session with the
given maximum duration (seconds); resets the session's frame count and overrun
flag". -/
def RTnetAcquisition.StartAcquisition (s : RTnetAcquisition) (max_duration : ℚ) :
    RTnetAcquisition :=
  { s with
    tracker := { s.tracker with overrun := false }
    acquisitionOn := true
    maxDuration := max_duration
    nFrames := fun _ => 0 }

/-- Modelled from the spec: `DexRTnetTracker::StopAcquisition`, which is missing
from the sources: "ends the active session; buffered data collected so far
remains retrievable". -/
def RTnetAcquisition.StopAcquisition (s : RTnetAcquisition) : RTnetAcquisition :=
  { s with acquisitionOn := false }

/-- Modelled from the spec: the buffering step of `DexRTnetTracker::Update`,
which is missing from the sources: "while a session is active, each decoded
Frame for Unit u is appended to Unit u's buffer if capacity remains; once
capacity (DEX_MAX_MARKER_FRAMES) is reached, further frames for that Unit are
dropped" and the overrun is flagged. -/
def RTnetAcquisition.appendFrame (s : RTnetAcquisition) (u : Nat) (f : CodaFrame) :
    RTnetAcquisition :=
  if s.acquisitionOn then
    if s.nFrames u < DEX_MAX_MARKER_FRAMES then
      { s with
        tracker := { s.tracker with
          recordedMarkerFrames :=
            Function.update s.tracker.recordedMarkerFrames u
              (Function.update (s.tracker.recordedMarkerFrames u) (s.nFrames u) f) }
        nFrames := Function.update s.nFrames u (s.nFrames u + 1) }
    else
      { s with tracker := { s.tracker with overrun := true } }
  else s

/-- Modelled from the spec: the copy loop of `RetrieveMarkerFrames`, which is
missing from the sources: frames `0 .. n-1` of the unit's buffer `src` are
copied, one after the other, to the same positions of the caller's buffer. -/
def copyMarkerFrames (src dst : Nat → CodaFrame) : Nat → (Nat → CodaFrame)
  | 0 => dst
  | n + 1 => Function.update (copyMarkerFrames src dst n) n (src n)

/-- Modelled from the spec: `DexRTnetTracker::RetrieveMarkerFrames( frames,
max_frames, unit )`, which is missing from the sources: "copies up to maxFrames
buffered Frames for the given Unit into the caller-provided buffer, in
chronological order; returns the actual count copied ... Must not copy beyond
either bound. Does not clear the Unit's internal buffer". `max_frames` is the
capacity of the caller's buffer, a number of frames. The result is the count
returned, the caller's buffer after the call and the tracker after the call. -/
def RTnetAcquisition.RetrieveMarkerFrames (s : RTnetAcquisition)
    (frames : Nat → CodaFrame) (max_frames : Nat) (unit : Nat := 0) :
    Nat × (Nat → CodaFrame) × RTnetAcquisition :=
  let n := min (s.nFrames unit) max_frames
  (n, copyMarkerFrames (s.tracker.recordedMarkerFrames unit) frames n, s)

/-- The frames that a stream of decoded frames, each tagged with its unit,
holds for unit `u`, in the order of arrival. -/
def framesOfUnit (u : Nat) (stream : List (Nat × CodaFrame)) : List CodaFrame :=
  (stream.filter fun e => e.1 = u).map Prod.snd

/-- One acquisition session: `StartAcquisition( max_duration )`, then the
buffering step for each decoded frame of the stream, then `StopAcquisition`
when `stop` is set. -/
def RTnetAcquisition.session (s : RTnetAcquisition) (max_duration : ℚ)
    (stream : List (Nat × CodaFrame)) (stop : Bool) : RTnetAcquisition :=
  let s1 := stream.foldl (fun st e => st.appendFrame e.1 e.2)
    (s.StartAcquisition max_duration)
  if stop then s1.StopAcquisition else s1

/-- A frame whose markers are all at the origin and invisible, stamped `t`. -/
def CodaFrame.blank (t : ℚ) : CodaFrame := ⟨fun _ => ⟨fun _ => 0, false⟩, t⟩

/-- A stream of four decoded frames: three for unit 1, stamped 0, 1 and 2, and
one for unit 0 between the first two. -/
def sampleStream : List (Nat × CodaFrame) :=
  [(1, CodaFrame.blank 0), (0, CodaFrame.blank 0), (1, CodaFrame.blank 1),
   (1, CodaFrame.blank 2)]

/-- A caller's buffer that holds blank frames stamped 9. -/
def sampleBuffer : Nat → CodaFrame := fun _ => CodaFrame.blank 9

/-- A tracker state in zeroed memory, with no session. -/
def RTnetAcquisition.zeroed : RTnetAcquisition :=
  { tracker := DexRTnetTracker.zeroed, acquisitionOn := false, maxDuration := 0,
    nFrames := fun _ => 0 }

/-! ## `OpenGLTextures.cpp`: the texture filename cache

The file-scope statics `_texture_list`, `_texture_filename_cache`, `_textures`
and `_next_texture` form one state, passed explicitly.

`_texture_filename_cache[MAX_TEXTURES][1024]` is carried as the chars it
occupies in memory, row after row: the char `[i][k]` is at offset
`1024 * i + k`. A char is a number and `0` is the NUL that ends a string.
`strcpy` and `strcmp` work on these chars as the C functions do: `strcpy`
writes the chars of the source and the NUL behind them, from the start of the
row onwards, however many there are, and `strcmp` reads from the start of the
row until the strings differ or end. Neither stops at the end of a row. An
access at an offset beyond the last row, and a read of `_texture_list` at an
index that is not below `MAX_TEXTURES`, is outside the array, and an operation
that makes one has no result (`none`). -/

def MAX_TEXTURES : Nat := 200

/-- The number of chars of one row of `_texture_filename_cache[MAX_TEXTURES][1024]`. -/
def FILENAME_CHARS : Nat := 1024

/-- The number of chars of `_texture_filename_cache` as a whole. -/
def CACHE_CHARS : Nat := MAX_TEXTURES * FILENAME_CHARS

/-- The string that a char array holds: its chars before the first NUL. -/
def cstring (chars : List Nat) : List Nat := chars.takeWhile fun b => b ≠ 0

/-- What the code obtains from outside: the texture names `glGenTextures`
writes into the slots of `_texture_list`, whether `fopen` finds the file of a
given name, and whether `auxDIBImageLoad` returns an image for it. -/
structure GLWorld where
  glGenTextures : Nat → Nat
  fopen : List Nat → Bool
  auxDIBImageLoad : List Nat → Bool

/-- The statics of `OpenGLTextures.cpp`. -/
structure TextureCache where
  _texture_list : Nat → Nat
  _texture_filename_cache : Nat → Nat
  _textures : Nat
  _next_texture : Nat

/-- The statics at program start: `_textures = 0`, `_next_texture = 0` and
zeroed arrays. -/
def TextureCache.initial : TextureCache :=
  { _texture_list := fun _ => 0
    _texture_filename_cache := fun _ => 0
    _textures := 0
    _next_texture := 0 }

/-- The members of a `Texture` that `OpenGLTextures.cpp` uses. The class is
declared in `OpenGLTextures.h`, which is not among the sources, so the number of
chars of `bitmap_filename` is not fixed here: the member is the list of its
chars, and the name it holds is `cstring bitmap_filename`. `TextureImage` is a
pointer, carried as whether it is non-null. -/
structure Texture where
  bitmap_filename : List Nat
  u_length : ℚ
  v_length : ℚ
  texture_index : Nat
  TextureImage : Bool

/-- The file name of a texture: the string its `bitmap_filename` holds. -/
def Texture.filename (t : Texture) : List Nat := cstring t.bitmap_filename

/-- The calls that `LoadBitmap` is seen to make, itself included. -/
inductive Call where
  | LoadBitmap (filename : List Nat)
  | glBindTexture (texture : Nat)
  | glTexImage2D
  | MessageBox
  deriving DecidableEq, Repr

def Call.isLoadBitmap : Call → Bool
  | .LoadBitmap _ => true
  | _ => false

/-- The number of calls of `LoadBitmap` in a record of calls. -/
def loadBitmapCalls (calls : List Call) : Nat := calls.countP Call.isLoadBitmap

/-- The function `Texture::LoadBMP`: no image when the file cannot be opened,
otherwise what `auxDIBImageLoad` returns. -/
def Texture.LoadBMP (w : GLWorld) (filename : List Nat) : Bool :=
  if !w.fopen (cstring filename) then false else w.auxDIBImageLoad (cstring filename)

/-- What a call of `Texture::LoadBitmap` leaves: the texture, the status
returned and the calls made. -/
structure Loaded where
  texture : Texture
  status : Bool
  calls : List Call

/-- The function `Texture::LoadBitmap`: sets `TextureImage` to what `LoadBMP`
returns and, when there is an image, binds `_texture_list[ texture_index ]` and
hands the image to `glTexImage2D`; otherwise it shows a message box. The record
of calls starts with the call of `LoadBitmap` itself. There is no result when
the read of `_texture_list` is outside the array. -/
def Texture.LoadBitmap (w : GLWorld) (c : TextureCache) (t : Texture) (filename : List Nat) :
    Option Loaded :=
  let t1 := { t with TextureImage := Texture.LoadBMP w filename }
  if t1.TextureImage then
    if MAX_TEXTURES ≤ t1.texture_index then none
    else
      some
        { texture := t1
          status := true
          calls := [.LoadBitmap (cstring filename),
                    .glBindTexture (c._texture_list t1.texture_index), .glTexImage2D] }
  else
    some { texture := t1, status := false, calls := [.LoadBitmap (cstring filename), .MessageBox] }

/-- Whether `strcmp( &cache[p], s )` is `0`, for a string `s`: the chars of the
cache from offset `p` on are compared with those of `s` one by one, up to the
first difference or the common end. There is no result when a char beyond the
cache is read. -/
def strcmpEq (cache : Nat → Nat) : (s : List Nat) → (p : Nat) → Option Bool
  | [], p => if CACHE_CHARS ≤ p then none else some (cache p == 0)
  | b :: s, p =>
    if CACHE_CHARS ≤ p then none
    else if cache p = b then strcmpEq cache s (p + 1)
    else some false

/-- The chars `s` written to the cache from offset `p` on, in ascending order. -/
def writeChars : (s : List Nat) → (p : Nat) → (cache : Nat → Nat) → (Nat → Nat)
  | [], _, cache => cache
  | b :: s, p, cache => writeChars s (p + 1) (Function.update cache p b)

/-- The call `strcpy( &cache[p], src )`: the string that `src` holds and the NUL
that ends it are written from offset `p` on. There is no result when a char
beyond the cache is written. -/
def strcpy (cache : Nat → Nat) (p : Nat) (src : List Nat) : Option (Nat → Nat) :=
  if CACHE_CHARS < p + ((cstring src).length + 1) then none
  else some (writeChars (cstring src ++ [0]) p cache)

/-- The loop `for ( i = 0; i < _next_texture; i++ ) if ( !strcmp( cache[i], name ) ) break;`
started at index `i` with `remaining` iterations to go, for the string `name`.
The result is the value of `i` after the loop; there is none when `strcmp`
reads beyond the cache. -/
def findFilename (cache : Nat → Nat) (name : List Nat) : (remaining i : Nat) → Option Nat
  | 0, i => some i
  | remaining + 1, i =>
    match strcmpEq cache name (FILENAME_CHARS * i) with
    | none => none
    | some true => some i
    | some false => findFilename cache name remaining (i + 1)

/-- What a call of `Texture::Define` leaves: the statics, the texture, and the
calls that its call of `LoadBitmap`, if any, made. -/
structure Defined where
  cache : TextureCache
  texture : Texture
  calls : List Call

/-- The first block of `Texture::Define`:
`if ( ! _textures ) { glGenTextures( MAX_TEXTURES, &_texture_list[0] ); _textures = MAX_TEXTURES; _next_texture = 0; }`. -/
def TextureCache.createTextures (w : GLWorld) (c : TextureCache) : TextureCache :=
  if c._textures = 0 then
    { c with
      _texture_list := fun j => if j < MAX_TEXTURES then w.glGenTextures j else c._texture_list j
      _textures := MAX_TEXTURES
      _next_texture := 0 }
  else c

/-- The function `Texture::Define`. There is no result when an array is
accessed outside of it. -/
def Texture.Define (w : GLWorld) (c : TextureCache) (t : Texture) : Option Defined :=
  let c1 : TextureCache := c.createTextures w
  match findFilename c1._texture_filename_cache (cstring t.bitmap_filename)
      c1._next_texture 0 with
  | none => none
  | some i =>
    let t1 := { t with texture_index := i }
    if i = c1._next_texture then
      match Texture.LoadBitmap w c1 t1 t1.bitmap_filename with
      | none => none
      | some r =>
        match strcpy c1._texture_filename_cache (FILENAME_CHARS * c1._next_texture)
            r.texture.bitmap_filename with
        | none => none
        | some cache =>
          some
            { cache := { c1 with
                _texture_filename_cache := cache
                _next_texture := c1._next_texture + 1 }
              texture := r.texture
              calls := r.calls }
    else some { cache := c1, texture := t1, calls := [] }

/-- The function `Texture::Use`: when `TextureImage` is set, the texture name
`_texture_list[ texture_index ]` is bound. The result is the name bound, if any;
there is none when the read is outside the array. -/
def Texture.Use (c : TextureCache) (t : Texture) : Option (Option Nat) :=
  if t.TextureImage then
    if MAX_TEXTURES ≤ t.texture_index then none else some (some (c._texture_list t.texture_index))
  else some none

/-- The constructor `Texture( filename, u_length, v_length )`: copies the name
with `strcpy( bitmap_filename, filename )`, stores the lengths and calls
`Define`. `texture_index` and `TextureImage` are not initialised before that
call and keep the value of the raw object. -/
def Texture.ctor (w : GLWorld) (c : TextureCache) (raw : Texture) (filename : List Nat)
    (u_length v_length : ℚ) : Option Defined :=
  Texture.Define w c
    { raw with bitmap_filename := cstring filename, u_length := u_length, v_length := v_length }

/-- A sequence of calls of `Define`, one for each texture of the list in turn,
on the shared statics. The result is the statics and the textures after their
calls; there is none as soon as one call has none. -/
def DefineAll (w : GLWorld) : TextureCache → List Texture → Option (TextureCache × List Texture)
  | c, [] => some (c, [])
  | c, t :: ts =>
    match Texture.Define w c t with
    | none => none
    | some d =>
      match DefineAll w d.cache ts with
      | none => none
      | some (c1, ts1) => some (c1, d.texture :: ts1)

/-- The chars from offset `p` on up to the first NUL, `n` of them at most. -/
def readChars (cache : Nat → Nat) : (n p : Nat) → List Nat
  | 0, _ => []
  | n + 1, p => if cache p = 0 then [] else cache p :: readChars cache n (p + 1)

/-- The entry `_texture_filename_cache[i]`: the chars of row `i` before its
first NUL. -/
def TextureCache.entry (c : TextureCache) (i : Nat) : List Nat :=
  readChars c._texture_filename_cache FILENAME_CHARS (FILENAME_CHARS * i)

/-- The statics `c1` are reached from `c` by calls of `Define` for textures
whose file names are shorter than the `FILENAME_CHARS` chars of a row. -/
inductive Steps (w : GLWorld) (c : TextureCache) : TextureCache → Prop where
  | refl : Steps w c c
  | define {c1 : TextureCache} {d : Defined} (t : Texture) :
      Steps w c c1 → t.filename.length < FILENAME_CHARS →
      Texture.Define w c1 t = some d → Steps w c d.cache

/-- The cache states reached from the statics at program start by calls of
`Define` for textures whose file names are shorter than a row. -/
def Reachable (w : GLWorld) (c : TextureCache) : Prop := Steps w TextureCache.initial c

/-- Whether `name` is among the first `_next_texture` cached names. -/
def TextureCache.isCached (c : TextureCache) (name : List Nat) : Prop :=
  ∃ i, i < c._next_texture ∧ c.entry i = name

instance (c : TextureCache) (name : List Nat) : Decidable (c.isCached name) := by
  unfold TextureCache.isCached
  exact decidable_of_iff (∃ i ∈ List.range c._next_texture, c.entry i = name)
    (by simp)

/-- The cached names in `[0, _next_texture)` are pairwise distinct. -/
def TextureCache.distinct (c : TextureCache) : Prop :=
  ∀ i j, i < c._next_texture → j < c._next_texture → c.entry i = c.entry j → i = j

/-- The invariant of the statics: while no texture names were created nothing
is cached, the cache holds at most `MAX_TEXTURES` names, each of the rows in
use has its NUL, and the names are pairwise distinct. -/
def CacheInv (c : TextureCache) : Prop :=
  (c._textures = 0 → c._next_texture = 0) ∧ c._next_texture ≤ MAX_TEXTURES ∧
  (∀ i, i < c._next_texture → (c.entry i).length < FILENAME_CHARS) ∧ c.distinct

/-- The set of the first `_next_texture` cached names. -/
def TextureCache.cachedNames (c : TextureCache) : Finset (List Nat) :=
  (Finset.range c._next_texture).image c.entry

/-- A world in which every bitmap loads and slot `j` gets texture name `j + 1`. -/
def GLWorld.allLoad : GLWorld :=
  { glGenTextures := fun j => j + 1, fopen := fun _ => true, auxDIBImageLoad := fun _ => true }

/-- The file name number `k` of a family of pairwise distinct names: `k + 1`
times the char `b`. -/
def bitmapName (k : Nat) : List Nat := List.replicate (k + 1) 98

/-- A texture object whose `bitmap_filename` holds `chars`, not yet defined. -/
def Texture.named (chars : List Nat) : Texture :=
  { bitmap_filename := chars, u_length := 1, v_length := 1, texture_index := 0,
    TextureImage := false }

/-- The statics after the names `bitmapName 0 .. bitmapName (k-1)` were defined,
in this order, in the world `GLWorld.allLoad`: row `i < k` holds `i + 1` times
the char `b`, every other char is NUL. -/
def TextureCache.filled (k : Nat) : TextureCache :=
  { _texture_list := fun j => if j < MAX_TEXTURES then j + 1 else 0
    _texture_filename_cache := fun p =>
      if p / FILENAME_CHARS < k ∧ p % FILENAME_CHARS ≤ p / FILENAME_CHARS then 98 else 0
    _textures := MAX_TEXTURES
    _next_texture := k }

/-- A file name of 1024 chars, as many as a row has: 1024 times the char `a`. -/
def longName : List Nat := List.replicate 1024 97

/-- The file name `x`. -/
def shortName : List Nat := [120]

/-- A file name of 1024 chars: 1024 times the char `c`. -/
def longName2 : List Nat := List.replicate 1024 99

/-- The file name `y`. -/
def shortName2 : List Nat := [121]

/-- The file name `floor.bmp`. -/
def floorBmp : List Nat := [102, 108, 111, 111, 114, 46, 98, 109, 112]

/-- The file name `wall.bmp`. -/
def wallBmp : List Nat := [119, 97, 108, 108, 46, 98, 109, 112]

/-! ## Constructor properties -/

/-- C4: every `DexRTnetTracker`, as constructed, has `maxRetries` equal to 5,
whatever the raw object held; the constructor takes no argument. -/
theorem DexRTnetTracker_ctor_maxRetries (raw : DexRTnetTracker) :
    (DexRTnetTracker.ctor raw).maxRetries = 5 := rfl

/-- C5: each of the three tracker classes, as constructed, has
`samplePeriod = 0.005`, and for the hardware backend this is the period of the
mode it requests: `samplePeriod * rate * decimation = 1` with rate 200 Hz and
decimation 1. -/
theorem ctor_samplePeriod (rawT : DexTracker) (rawM : DexMouseTracker) (dlg : HWND)
    (rawR : DexRTnetTracker) :
    (DexTracker.ctor rawT).samplePeriod = 0.005 ∧
    (DexMouseTracker.ctor rawM dlg).samplePeriod = 0.005 ∧
    (DexRTnetTracker.ctor rawR).samplePeriod = 0.005 ∧
    (DexRTnetTracker.ctor rawR).mode.rateMode.rateHz = 200 ∧
    (DexRTnetTracker.ctor rawR).mode.decimation = 1 ∧
    (DexRTnetTracker.ctor rawR).samplePeriod
        * ((DexRTnetTracker.ctor rawR).mode.rateMode.rateHz : ℚ)
        * ((DexRTnetTracker.ctor rawR).mode.decimation : ℚ) = 1 := by
  refine ⟨rfl, rfl, rfl, rfl, rfl, ?_⟩
  simp only [DexRTnetTracker.ctor, DexTracker.ctor, CodaRateMode.rateHz]
  norm_num

/-- C6: every `DexRTnetTracker`, as constructed, requests the rate mode
`CODANET_CODA_MODE_200` with decimation 1 and no external sync, the packet mode
`CODANET_CODAPACKETMODE_SEPARATE_AND_COMBINED_COORD`, hardware configuration 1
and cx1 device 1. -/
theorem DexRTnetTracker_ctor_modes (raw : DexRTnetTracker) :
    (DexRTnetTracker.ctor raw).mode.rateMode = .CODANET_CODA_MODE_200 ∧
    (DexRTnetTracker.ctor raw).mode.decimation = 1 ∧
    (DexRTnetTracker.ctor raw).mode.externalSync = false ∧
    (DexRTnetTracker.ctor raw).packet_mode
        = .CODANET_CODAPACKETMODE_SEPARATE_AND_COMBINED_COORD ∧
    (DexRTnetTracker.ctor raw).codaConfig = 1 ∧
    (DexRTnetTracker.ctor raw).cx1Device = 1 :=
  ⟨rfl, rfl, rfl, rfl, rfl, rfl⟩

/-- C8: a newly constructed `DexMouseTracker`, for every dialog handle, has
`acquisitionOn = false` and `overrun = false`, stores the handle in `dlg`, and
has the base defaults `nCodas = 2`, `nMarkers = 24`; with no argument the
handle stored is `NULL`. -/
theorem DexMouseTracker_ctor_state (raw : DexMouseTracker) (dlg : HWND) :
    (DexMouseTracker.ctor raw dlg).acquisitionOn = false ∧
    (DexMouseTracker.ctor raw dlg).overrun = false ∧
    (DexMouseTracker.ctor raw dlg).dlg = dlg ∧
    (DexMouseTracker.ctor raw).dlg = NULL ∧
    (DexMouseTracker.ctor raw dlg).nCodas = 2 ∧
    (DexMouseTracker.ctor raw dlg).nMarkers = 24 :=
  ⟨rfl, rfl, rfl, rfl, rfl, rfl⟩

/-- C7: the frame storage of the hardware-backed tracker has exactly
`DEX_MAX_CODAS = 8` unit rows of `DEX_MAX_MARKER_FRAMES = 20000` frames each; a
constructed tracker has `nCodas = N_CODAS = 2` with `nCodas + 1 <= DEX_MAX_CODAS`;
so every access `recordedMarkerFrames[u][k]` with `0 <= u <= nCodas` and
`0 <= k < DEX_MAX_MARKER_FRAMES` is inside the array. -/
theorem recordedMarkerFrames_access_inBounds (raw : DexRTnetTracker) (u k : Int)
    (hu0 : 0 ≤ u) (hu : u ≤ (DexRTnetTracker.ctor raw).nCodas)
    (hk0 : 0 ≤ k) (hk : k < DEX_MAX_MARKER_FRAMES) :
    recordedMarkerFrames_dims = (DEX_MAX_CODAS, DEX_MAX_MARKER_FRAMES) ∧
    DEX_MAX_CODAS = 8 ∧ DEX_MAX_MARKER_FRAMES = 20000 ∧
    (DexRTnetTracker.ctor raw).nCodas = N_CODAS ∧ N_CODAS = 2 ∧
    (DexRTnetTracker.ctor raw).nCodas + 1 ≤ DEX_MAX_CODAS ∧
    recordedMarkerFrames_inBounds u k := by
  have hn : (DexRTnetTracker.ctor raw).nCodas = 2 := rfl
  rw [hn] at hu
  refine ⟨rfl, rfl, rfl, rfl, rfl, ?_, hu0, ?_, hk0, ?_⟩
  · rw [hn]; decide
  · show u < ((8 : Nat) : Int)
    omega
  · exact hk

/-- C7, at the last unit row a constructed tracker uses (the combined frame,
`u = nCodas = 2`) and the last frame of a row (`k = 19999`). -/
theorem recordedMarkerFrames_access_inBounds_witness :
    recordedMarkerFrames_dims = (DEX_MAX_CODAS, DEX_MAX_MARKER_FRAMES) ∧
    DEX_MAX_CODAS = 8 ∧ DEX_MAX_MARKER_FRAMES = 20000 ∧
    (DexRTnetTracker.ctor DexRTnetTracker.zeroed).nCodas = N_CODAS ∧ N_CODAS = 2 ∧
    (DexRTnetTracker.ctor DexRTnetTracker.zeroed).nCodas + 1 ≤ DEX_MAX_CODAS ∧
    recordedMarkerFrames_inBounds 2 19999 :=
  recordedMarkerFrames_access_inBounds DexRTnetTracker.zeroed 2 19999
    (by decide) (by decide) (by decide) (by decide)

/-! ## Virtual dispatch -/

/-- C2, evaluated on the header: `DexMouseTracker` declares no
`CheckAcquisitionOverrun()`; what it declares is `CheckOverrun()`, which is not
a function of the `DexTracker` interface. A call of `CheckAcquisitionOverrun`
through the interface on a `DexMouseTracker` therefore runs the implementation
of `DexTracker`, whereas on a `DexRTnetTracker` it runs the tracker's own. Every
other member function that `DexMouseTracker` declares is a virtual function of
`DexTracker` with the same name and parameter list. -/
theorem DexMouseTracker_CheckAcquisitionOverrun_dispatch :
    finalOverrider .DexMouseTracker "CheckAcquisitionOverrun" [] = some .DexTracker ∧
    TrackerClass.DexMouseTracker.declaresFn "CheckAcquisitionOverrun" [] = false ∧
    TrackerClass.DexMouseTracker.declaresFn "CheckOverrun" [] = true ∧
    isInterfaceFn "CheckOverrun" [] = false ∧
    finalOverrider .DexRTnetTracker "CheckAcquisitionOverrun" []
      = some .DexRTnetTracker ∧
    (∀ m ∈ TrackerClass.DexMouseTracker.declares,
      m.name ≠ "CheckOverrun" → isInterfaceFn m.name m.params = true) := by
  decide

/-- C3, evaluated on the header: `DexRTnetTracker` declares `Initialize()` but no
`Quit()`, so `Quit` called through the interface on a `DexRTnetTracker` runs the
implementation of `DexTracker`, which has no access to the private member `cl`
of `DexRTnetTracker`; `DexMouseTracker` declares both `Initialize()` and
`Quit()`. -/
theorem DexRTnetTracker_Quit_dispatch :
    finalOverrider .DexRTnetTracker "Initialize" [] = some .DexRTnetTracker ∧
    TrackerClass.DexRTnetTracker.declaresFn "Quit" [] = false ∧
    finalOverrider .DexRTnetTracker "Quit" [] = some .DexTracker ∧
    canAccessPrivate .DexTracker "cl" .DexRTnetTracker = false ∧
    canAccessPrivate .DexRTnetTracker "cl" .DexRTnetTracker = true ∧
    finalOverrider .DexMouseTracker "Initialize" [] = some .DexMouseTracker ∧
    finalOverrider .DexMouseTracker "Quit" [] = some .DexMouseTracker := by
  decide

/-! ## Retrieval of the recorded frames -/

theorem copyMarkerFrames_apply (src dst : Nat → CodaFrame) (n k : Nat) :
    copyMarkerFrames src dst n k = if k < n then src k else dst k := by
  induction n with
  | zero => simp [copyMarkerFrames]
  | succ n ih =>
    simp only [copyMarkerFrames, Function.update_apply, ih]
    by_cases h1 : k = n
    · subst h1; simp
    · by_cases h2 : k < n
      · have : k < n + 1 := by omega
        simp [h1, h2, this]
      · have : ¬ k < n + 1 := by omega
        simp [h1, h2, this]

/-- The buffering steps of a running session, for a unit whose buffer has room
for all its frames of the stream: the unit's count grows by their number, what
the buffer held stays, and the frames land behind it in the order of arrival. -/
theorem appendFrame_foldl (u : Nat) (stream : List (Nat × CodaFrame)) :
    ∀ st : RTnetAcquisition, st.acquisitionOn = true →
      st.nFrames u + (framesOfUnit u stream).length ≤ DEX_MAX_MARKER_FRAMES →
      let st1 := stream.foldl (fun st e => st.appendFrame e.1 e.2) st
      st1.acquisitionOn = true ∧
      st1.nFrames u = st.nFrames u + (framesOfUnit u stream).length ∧
      (∀ k, k < st.nFrames u →
        st1.tracker.recordedMarkerFrames u k = st.tracker.recordedMarkerFrames u k) ∧
      (∀ j, j < (framesOfUnit u stream).length →
        (framesOfUnit u stream)[j]?
          = some (st1.tracker.recordedMarkerFrames u (st.nFrames u + j))) := by
  induction stream with
  | nil =>
    intro st hon _
    simp [framesOfUnit, hon]
  | cons e rest ih =>
    intro st hon hroom
    obtain ⟨v, f⟩ := e
    by_cases hv : v = u
    · subst hv
      have hlen : (framesOfUnit v ((v, f) :: rest)).length
          = (framesOfUnit v rest).length + 1 := by
        simp [framesOfUnit]
      have hlt : st.nFrames v < DEX_MAX_MARKER_FRAMES := by omega
      have hst : st.appendFrame v f =
          { st with
            tracker := { st.tracker with
              recordedMarkerFrames :=
                Function.update st.tracker.recordedMarkerFrames v
                  (Function.update (st.tracker.recordedMarkerFrames v) (st.nFrames v) f) }
            nFrames := Function.update st.nFrames v (st.nFrames v + 1) } := by
        simp [RTnetAcquisition.appendFrame, hon, hlt]
      have hn1 : (st.appendFrame v f).nFrames v = st.nFrames v + 1 := by
        rw [hst]; simp
      have hon1 : (st.appendFrame v f).acquisitionOn = true := by
        rw [hst]; exact hon
      have hrow : ∀ k, (st.appendFrame v f).tracker.recordedMarkerFrames v k
          = if k = st.nFrames v then f else st.tracker.recordedMarkerFrames v k := by
        intro k; rw [hst]; simp [Function.update_apply]
      obtain ⟨h1, h2, h3, h4⟩ := ih (st.appendFrame v f) hon1 (by rw [hn1]; omega)
      simp only [List.foldl_cons]
      refine ⟨h1, by rw [h2, hn1, hlen]; omega, ?_, ?_⟩
      · intro k hk
        rw [h3 k (by rw [hn1]; omega), hrow k]
        simp [Nat.ne_of_lt hk]
      · intro j hj
        cases j with
        | zero =>
          have := h3 (st.nFrames v) (by rw [hn1]; omega)
          rw [hrow] at this
          simp [framesOfUnit, this]
        | succ j =>
          have hj1 : j < (framesOfUnit v rest).length := by omega
          have := h4 j hj1
          rw [hn1] at this
          have hidx : st.nFrames v + (j + 1) = st.nFrames v + 1 + j := by omega
          rw [hidx, ← this]
          simp [framesOfUnit]
    · have hfo : framesOfUnit u ((v, f) :: rest) = framesOfUnit u rest := by
        simp [framesOfUnit, hv]
      have hn1 : (st.appendFrame v f).nFrames u = st.nFrames u := by
        unfold RTnetAcquisition.appendFrame
        split_ifs <;> simp [Function.update_apply, Ne.symm hv]
      have hon1 : (st.appendFrame v f).acquisitionOn = true := by
        unfold RTnetAcquisition.appendFrame
        split_ifs <;> simp [hon]
      have hrow : (st.appendFrame v f).tracker.recordedMarkerFrames u
          = st.tracker.recordedMarkerFrames u := by
        unfold RTnetAcquisition.appendFrame
        split_ifs <;> simp [Function.update_apply, Ne.symm hv]
      rw [hfo] at hroom ⊢
      obtain ⟨h1, h2, h3, h4⟩ := ih (st.appendFrame v f) hon1 (by rw [hn1]; exact hroom)
      simp only [List.foldl_cons]
      rw [hn1] at h2 h3 h4
      rw [hrow] at h3
      exact ⟨h1, h2, h3, h4⟩

/-- C1 (against the operations modelled from the spec): after a session in
which `n <= DEX_MAX_MARKER_FRAMES` frames were recorded for unit `u`, whether or
not the session was stopped, `RetrieveMarkerFrames( frames, m, u )` returns
exactly `min n m`; `frames[0 .. min n m - 1]` are the first `min n m` frames
recorded for `u`, in the order they were recorded; the caller's buffer is not
written at or beyond `min n m`; and the tracker, its `recordedMarkerFrames`
included, is left unchanged. -/
theorem RetrieveMarkerFrames_recorded (s : RTnetAcquisition) (max_duration : ℚ)
    (stream : List (Nat × CodaFrame)) (stop : Bool) (u m : Nat)
    (frames : Nat → CodaFrame)
    (hn : (framesOfUnit u stream).length ≤ DEX_MAX_MARKER_FRAMES) :
    ((s.session max_duration stream stop).RetrieveMarkerFrames frames m u).1
        = min (framesOfUnit u stream).length m ∧
    (∀ k, k < min (framesOfUnit u stream).length m →
      (framesOfUnit u stream)[k]?
        = some (((s.session max_duration stream stop).RetrieveMarkerFrames frames m u).2.1 k)) ∧
    (∀ k, min (framesOfUnit u stream).length m ≤ k →
      ((s.session max_duration stream stop).RetrieveMarkerFrames frames m u).2.1 k = frames k) ∧
    ((s.session max_duration stream stop).RetrieveMarkerFrames frames m u).2.2
        = s.session max_duration stream stop ∧
    ((s.session max_duration stream stop).RetrieveMarkerFrames frames m u).2.2.tracker.recordedMarkerFrames u
        = (s.session max_duration stream stop).tracker.recordedMarkerFrames u := by
  obtain ⟨-, h2, -, h4⟩ := appendFrame_foldl u stream (s.StartAcquisition max_duration) rfl
    (by simpa [RTnetAcquisition.StartAcquisition] using hn)
  have hcount : (s.session max_duration stream stop).nFrames u = (framesOfUnit u stream).length := by
    have : (s.StartAcquisition max_duration).nFrames u = 0 := rfl
    rw [this, Nat.zero_add] at h2
    unfold RTnetAcquisition.session
    cases stop <;> simpa [RTnetAcquisition.StopAcquisition] using h2
  have hrows : (s.session max_duration stream stop).tracker.recordedMarkerFrames u
      = (stream.foldl (fun st e => st.appendFrame e.1 e.2)
          (s.StartAcquisition max_duration)).tracker.recordedMarkerFrames u := by
    unfold RTnetAcquisition.session
    cases stop <;> simp [RTnetAcquisition.StopAcquisition]
  refine ⟨?_, ?_, ?_, rfl, rfl⟩
  · simp [RTnetAcquisition.RetrieveMarkerFrames, hcount]
  · intro k hk
    have hk1 : k < (framesOfUnit u stream).length := lt_of_lt_of_le hk (min_le_left _ _)
    have := h4 k hk1
    simp only [RTnetAcquisition.RetrieveMarkerFrames, copyMarkerFrames_apply, hcount,
      if_pos hk, hrows]
    simpa [RTnetAcquisition.StartAcquisition] using this
  · intro k hk
    simp only [RTnetAcquisition.RetrieveMarkerFrames, copyMarkerFrames_apply, hcount,
      if_neg (not_lt.mpr hk)]

/-- C1 at a concrete session: three frames arrive for unit 1, interleaved with
one for unit 0, in a session of at most one second that is stopped, and two
frames are asked for. -/
theorem RetrieveMarkerFrames_recorded_witness :
    (framesOfUnit 1 sampleStream).length ≤ DEX_MAX_MARKER_FRAMES ∧
    ((RTnetAcquisition.zeroed.session 1 sampleStream true).RetrieveMarkerFrames
        sampleBuffer 2 1).1 = min (framesOfUnit 1 sampleStream).length 2 ∧
    (∀ k, k < min (framesOfUnit 1 sampleStream).length 2 →
      (framesOfUnit 1 sampleStream)[k]?
        = some (((RTnetAcquisition.zeroed.session 1 sampleStream true).RetrieveMarkerFrames
            sampleBuffer 2 1).2.1 k)) ∧
    (∀ k, min (framesOfUnit 1 sampleStream).length 2 ≤ k →
      ((RTnetAcquisition.zeroed.session 1 sampleStream true).RetrieveMarkerFrames
          sampleBuffer 2 1).2.1 k = sampleBuffer k) ∧
    ((RTnetAcquisition.zeroed.session 1 sampleStream true).RetrieveMarkerFrames
        sampleBuffer 2 1).2.2 = RTnetAcquisition.zeroed.session 1 sampleStream true ∧
    ((RTnetAcquisition.zeroed.session 1 sampleStream true).RetrieveMarkerFrames
        sampleBuffer 2 1).2.2.tracker.recordedMarkerFrames 1
      = (RTnetAcquisition.zeroed.session 1 sampleStream true).tracker.recordedMarkerFrames 1 :=
  ⟨by decide,
    RetrieveMarkerFrames_recorded RTnetAcquisition.zeroed 1 sampleStream true 1 2
      sampleBuffer (by decide)⟩

/-! ## The texture filename cache -/

/-! ### Strings in the cache -/

theorem cstring_nonzero (chars : List Nat) : ∀ b ∈ cstring chars, b ≠ 0 := by
  intro b hb
  have := List.mem_takeWhile_imp hb
  simpa using this

theorem cstring_eq_self (s : List Nat) (h : ∀ b ∈ s, b ≠ 0) : cstring s = s := by
  unfold cstring
  rw [List.takeWhile_eq_self_iff]
  intro b hb
  simpa using h b hb

theorem writeChars_apply (s : List Nat) :
    ∀ (p : Nat) (cache : Nat → Nat) (k : Nat),
      writeChars s p cache k
        = if p ≤ k ∧ k < p + s.length then s.getD (k - p) 0 else cache k := by
  induction s with
  | nil =>
    intro p cache k
    have : ¬ (p ≤ k ∧ k < p) := by omega
    simp [writeChars, this]
  | cons b s ih =>
    intro p cache k
    simp only [writeChars, ih, List.length_cons]
    by_cases h1 : k = p
    · subst h1
      have hn : ¬ (k + 1 ≤ k ∧ k < k + 1 + s.length) := by omega
      have hy : k ≤ k ∧ k < k + (s.length + 1) := by omega
      simp [hn, hy]
    · by_cases h2 : p + 1 ≤ k ∧ k < p + 1 + s.length
      · have hy : p ≤ k ∧ k < p + (s.length + 1) := by omega
        have hk : k - p = (k - (p + 1)) + 1 := by omega
        rw [if_pos h2, if_pos hy, hk, List.getD_cons_succ]
      · have hn : ¬ (p ≤ k ∧ k < p + (s.length + 1)) := by omega
        rw [if_neg h2, if_neg hn, Function.update_apply, if_neg h1]

/-- A string written with its NUL is read back. -/
theorem readChars_written (cache : Nat → Nat) (s : List Nat) :
    ∀ n p, (∀ b ∈ s, b ≠ 0) → s.length < n →
      (∀ k, k < s.length → cache (p + k) = s.getD k 0) → cache (p + s.length) = 0 →
      readChars cache n p = s := by
  induction s with
  | nil =>
    intro n p _ hn _ h0
    cases n with
    | zero => omega
    | succ n => simp only [List.length_nil, Nat.add_zero] at h0; simp [readChars, h0]
  | cons b s ih =>
    intro n p hnz hn hk h0
    cases n with
    | zero => omega
    | succ n =>
      have hb : cache p = b := by simpa using hk 0 (by simp)
      have hb0 : b ≠ 0 := hnz b (by simp)
      simp only [readChars, hb, if_neg hb0]
      congr 1
      apply ih n (p + 1) (fun c hc => hnz c (by simp [hc])) (by simpa using hn)
      · intro k hk1
        have := hk (k + 1) (by simpa using hk1)
        rw [List.getD_cons_succ] at this
        rw [← this]; congr 1; omega
      · rw [← h0]; congr 1; simp only [List.length_cons]; omega

/-- Reading depends on the chars read only. -/
theorem readChars_congr (cache cache1 : Nat → Nat) :
    ∀ n p, (∀ k, p ≤ k → k < p + n → cache1 k = cache k) →
      readChars cache1 n p = readChars cache n p := by
  intro n
  induction n with
  | zero => intro p _; rfl
  | succ n ih =>
    intro p h
    simp only [readChars, h p (le_refl _) (by omega)]
    rw [ih (p + 1) (fun k h1 h2 => h k (by omega) (by omega))]

/-- On a row that has its NUL, `strcmp` is `0` exactly when the entry is the
string. -/
theorem strcmpEq_entry (cache : Nat → Nat) :
    ∀ n s p, (readChars cache n p).length < n → p + n ≤ CACHE_CHARS →
      (∀ b ∈ s, b ≠ 0) →
      strcmpEq cache s p = some (decide (readChars cache n p = s)) := by
  intro n
  induction n with
  | zero => intro s p h; simp [readChars] at h
  | succ n ih =>
    intro s p hlen hp hs
    have hlt : ¬ CACHE_CHARS ≤ p := by omega
    by_cases h0 : cache p = 0
    · cases s with
      | nil => simp [strcmpEq, readChars, hlt, h0]
      | cons b s =>
        have hb : ¬ 0 = b := fun h => hs b (by simp) h.symm
        simp [strcmpEq, readChars, hlt, h0, hb]
    · simp only [readChars, if_neg h0, List.length_cons] at hlen
      cases s with
      | nil => simp [strcmpEq, readChars, hlt, h0]
      | cons b s =>
        by_cases hb : cache p = b
        · have := ih s (p + 1) (by omega) (by omega) (fun c hc => hs c (by simp [hc]))
          subst hb
          simp [strcmpEq, readChars, hlt, h0, this]
        · simp [strcmpEq, readChars, hlt, h0, hb]

/-- When the chars from `p` on are those of `s`, `strcmp` is `0` exactly when
the NUL follows them. -/
theorem strcmpEq_matching (cache : Nat → Nat) (s : List Nat) :
    ∀ p, (∀ k, k < s.length → cache (p + k) = s.getD k 0) → p + s.length < CACHE_CHARS →
      strcmpEq cache s p = some (cache (p + s.length) == 0) := by
  induction s with
  | nil =>
    intro p _ hp
    have hlt : ¬ CACHE_CHARS ≤ p := by simpa using hp
    simp [strcmpEq, hlt]
  | cons b s ih =>
    intro p hk hp
    simp only [List.length_cons] at hp
    have hlt : ¬ CACHE_CHARS ≤ p := by omega
    have hb : cache p = b := by simpa using hk 0 (by simp)
    have := ih (p + 1) (fun k hk1 => by
      have := hk (k + 1) (by simpa using hk1)
      rw [List.getD_cons_succ] at this
      rw [← this]; congr 1; omega) (by omega)
    simp only [strcmpEq, hlt, hb, if_true, if_false, this, List.length_cons]
    congr 3; omega

/-- The first block of `Define` changes neither the number of cached names nor
the chars of the cache, and leaves `_textures` non-zero. -/
theorem createTextures_facts (w : GLWorld) (c : TextureCache)
    (hz : c._textures = 0 → c._next_texture = 0) :
    (c.createTextures w)._next_texture = c._next_texture ∧
    (c.createTextures w)._texture_filename_cache = c._texture_filename_cache ∧
    (c.createTextures w)._textures ≠ 0 := by
  unfold TextureCache.createTextures
  by_cases h : c._textures = 0
  · simp [h, hz h, MAX_TEXTURES]
  · simp [h]

/-- The loop over rows that have their NUL stops at the first row whose entry
is the name, or behind the last row. -/
theorem findFilename_spec (cache : Nat → Nat) (name : List Nat)
    (hname : ∀ b ∈ name, b ≠ 0) :
    ∀ remaining i, i + remaining ≤ MAX_TEXTURES →
      (∀ l, i ≤ l → l < i + remaining →
        (readChars cache FILENAME_CHARS (FILENAME_CHARS * l)).length < FILENAME_CHARS) →
      ∃ j, findFilename cache name remaining i = some j ∧ i ≤ j ∧ j ≤ i + remaining ∧
        (∀ l, i ≤ l → l < j →
          readChars cache FILENAME_CHARS (FILENAME_CHARS * l) ≠ name) ∧
        (j < i + remaining →
          readChars cache FILENAME_CHARS (FILENAME_CHARS * j) = name) := by
  intro remaining
  induction remaining with
  | zero =>
    intro i _ _
    exact ⟨i, rfl, le_refl _, le_refl _, fun l h1 h2 => absurd h1 (by omega),
      fun h => absurd h (by omega)⟩
  | succ r ih =>
    intro i hi hrows
    have hcmp := strcmpEq_entry cache FILENAME_CHARS name (FILENAME_CHARS * i)
      (hrows i (le_refl _) (by omega))
      (by simp only [CACHE_CHARS, MAX_TEXTURES, FILENAME_CHARS] at *; omega) hname
    by_cases hc : readChars cache FILENAME_CHARS (FILENAME_CHARS * i) = name
    · refine ⟨i, by simp [findFilename, hcmp, hc], le_refl _, by omega, ?_, fun _ => hc⟩
      intro l h1 h2; omega
    · obtain ⟨j, hj, h1, h2, h3, h4⟩ :=
        ih (i + 1) (by omega) (fun l hl1 hl2 => hrows l (by omega) (by omega))
      refine ⟨j, by simp [findFilename, hcmp, hc, hj], by omega, by omega, ?_, ?_⟩
      · intro l hl1 hl2
        by_cases hli : l = i
        · subst hli; exact hc
        · exact h3 l (by omega) hl2
      · intro hlt2; exact h4 (by omega)

/-! ### One call of `Define` -/

/-- The call of `Define` for a name that the loop finds at index `i`. -/
theorem Define_found (w : GLWorld) (c : TextureCache) (t : Texture) (i : Nat)
    (hf : findFilename (c.createTextures w)._texture_filename_cache (cstring t.bitmap_filename)
      (c.createTextures w)._next_texture 0 = some i)
    (hi : i ≠ (c.createTextures w)._next_texture) :
    Texture.Define w c t
      = some { cache := c.createTextures w, texture := { t with texture_index := i },
               calls := [] } := by
  simp [Texture.Define, hf, hi]

/-- The call of `Define` for a name that the loop does not find, when a row is
free and the name with its NUL ends inside the cache. -/
theorem Define_new (w : GLWorld) (c : TextureCache) (t : Texture)
    (hf : findFilename (c.createTextures w)._texture_filename_cache (cstring t.bitmap_filename)
      (c.createTextures w)._next_texture 0 = some (c.createTextures w)._next_texture)
    (hroom : (c.createTextures w)._next_texture < MAX_TEXTURES)
    (hfit : FILENAME_CHARS * (c.createTextures w)._next_texture
      + ((cstring t.bitmap_filename).length + 1) ≤ CACHE_CHARS) :
    ∃ d, Texture.Define w c t = some d ∧
      d.cache = { c.createTextures w with
        _texture_filename_cache :=
          writeChars (cstring t.bitmap_filename ++ [0])
            (FILENAME_CHARS * (c.createTextures w)._next_texture)
            (c.createTextures w)._texture_filename_cache
        _next_texture := (c.createTextures w)._next_texture + 1 } ∧
      d.texture = { t with
        texture_index := (c.createTextures w)._next_texture
        TextureImage := Texture.LoadBMP w t.bitmap_filename } ∧
      loadBitmapCalls d.calls = 1 := by
  have h1 : ¬ MAX_TEXTURES ≤ (c.createTextures w)._next_texture := by omega
  have h2 : ¬ CACHE_CHARS < FILENAME_CHARS * (c.createTextures w)._next_texture
      + ((cstring t.bitmap_filename).length + 1) := by omega
  by_cases hl : Texture.LoadBMP w t.bitmap_filename = true
  · have hd : Texture.Define w c t = some
        { cache := { c.createTextures w with
            _texture_filename_cache :=
              writeChars (cstring t.bitmap_filename ++ [0])
                (FILENAME_CHARS * (c.createTextures w)._next_texture)
                (c.createTextures w)._texture_filename_cache
            _next_texture := (c.createTextures w)._next_texture + 1 }
          texture := { t with
            texture_index := (c.createTextures w)._next_texture
            TextureImage := true }
          calls := [.LoadBitmap (cstring t.bitmap_filename),
            .glBindTexture ((c.createTextures w)._texture_list
              (c.createTextures w)._next_texture), .glTexImage2D] } := by
      simp only [Texture.Define, hf, Texture.LoadBitmap, strcpy, hl, h1, h2, if_true,
        if_false]
    exact ⟨_, hd, rfl, by simp [hl], rfl⟩
  · have hl' : Texture.LoadBMP w t.bitmap_filename = false := by simpa using hl
    have hd : Texture.Define w c t = some
        { cache := { c.createTextures w with
            _texture_filename_cache :=
              writeChars (cstring t.bitmap_filename ++ [0])
                (FILENAME_CHARS * (c.createTextures w)._next_texture)
                (c.createTextures w)._texture_filename_cache
            _next_texture := (c.createTextures w)._next_texture + 1 }
          texture := { t with
            texture_index := (c.createTextures w)._next_texture
            TextureImage := false }
          calls := [.LoadBitmap (cstring t.bitmap_filename), .MessageBox] } := by
      simp [Texture.Define, hf, Texture.LoadBitmap, strcpy, hl', h2]
    exact ⟨_, hd, rfl, by simp [hl'], rfl⟩

/-- No row inside the cache starts beyond it: row `i < MAX_TEXTURES` ends at
or before the end of the cache. -/
theorem row_inside (i : Nat) (hi : i < MAX_TEXTURES) :
    FILENAME_CHARS * i + FILENAME_CHARS ≤ CACHE_CHARS := by
  simp only [CACHE_CHARS, MAX_TEXTURES, FILENAME_CHARS] at *
  omega

/-- What one call of `Define` does to statics that satisfy the invariant, for a
name shorter than a row that is cached or finds a row free. -/
theorem Define_step (w : GLWorld) (c : TextureCache) (t : Texture) (hinv : CacheInv c)
    (hshort : t.filename.length < FILENAME_CHARS)
    (hroom : c.isCached t.filename ∨ c._next_texture < MAX_TEXTURES) :
    ∃ d, Texture.Define w c t = some d ∧
      d.texture.texture_index < d.cache._next_texture ∧
      d.cache.entry d.texture.texture_index = t.filename ∧
      (∀ i, i < c._next_texture → d.cache.entry i = c.entry i) ∧
      d.cache._textures ≠ 0 ∧
      CacheInv d.cache ∧
      (c.isCached t.filename →
        d.texture.texture_index < c._next_texture ∧ loadBitmapCalls d.calls = 0 ∧
        d.cache._next_texture = c._next_texture) ∧
      (¬ c.isCached t.filename →
        d.texture.texture_index = c._next_texture ∧ loadBitmapCalls d.calls = 1 ∧
        d.cache._next_texture = c._next_texture + 1) := by
  obtain ⟨hz, hle, hrowsok, hdist⟩ := hinv
  obtain ⟨hn, hcache, ht⟩ := createTextures_facts w c hz
  have hentry : ∀ i, (c.createTextures w).entry i = c.entry i := by
    intro i; simp only [TextureCache.entry, hcache]
  obtain ⟨j, hj, -, hj2, hj3, hj4⟩ :=
    findFilename_spec c._texture_filename_cache t.filename (cstring_nonzero _)
      c._next_texture 0 (by omega) (fun l _ hl => hrowsok l (by omega))
  rw [Nat.zero_add] at hj2 hj4
  have hj' : findFilename (c.createTextures w)._texture_filename_cache
      (cstring t.bitmap_filename) (c.createTextures w)._next_texture 0 = some j := by
    rw [hcache, hn]; exact hj
  by_cases hlt : j < c._next_texture
  · have hcached : c.isCached t.filename := ⟨j, hlt, hj4 hlt⟩
    refine ⟨_, Define_found w c t j hj' (by rw [hn]; omega), ?_, ?_, ?_, ht, ?_, ?_, ?_⟩
    · show j < (c.createTextures w)._next_texture
      rw [hn]; exact hlt
    · show (c.createTextures w).entry j = t.filename
      rw [hentry]; exact hj4 hlt
    · intro i _
      exact hentry i
    · refine ⟨fun h => absurd h ht, by rw [hn]; exact hle, ?_, ?_⟩
      · intro i hi
        rw [hn] at hi
        rw [hentry]; exact hrowsok i hi
      · intro a b ha hb hab
        rw [hn] at ha hb
        rw [hentry, hentry] at hab
        exact hdist a b ha hb hab
    · intro _
      exact ⟨hlt, rfl, hn⟩
    · intro hnot; exact absurd hcached hnot
  · have hjeq : j = c._next_texture := by omega
    have hnot : ¬ c.isCached t.filename := by
      rintro ⟨i, hi, hci⟩
      exact hj3 i (Nat.zero_le _) (by omega) hci
    have hfree : c._next_texture < MAX_TEXTURES := by
      rcases hroom with h | h
      · exact absurd h hnot
      · exact h
    rw [hjeq, ← hn] at hj'
    have hin := row_inside c._next_texture hfree
    have hshort' : (cstring t.bitmap_filename).length < FILENAME_CHARS := hshort
    obtain ⟨d, hd, hdc, hdt, hcalls⟩ := Define_new w c t hj' (by rw [hn]; exact hfree)
      (by rw [hn]; omega)
    rw [hn, hcache] at hdc
    have hidx : d.texture.texture_index = c._next_texture := by rw [hdt]; exact hn
    have hnext : d.cache._next_texture = c._next_texture + 1 := by rw [hdc]
    have hmem : ∀ k, d.cache._texture_filename_cache k
        = if FILENAME_CHARS * c._next_texture ≤ k
            ∧ k < FILENAME_CHARS * c._next_texture + ((cstring t.bitmap_filename).length + 1)
          then (cstring t.bitmap_filename ++ [0]).getD (k - FILENAME_CHARS * c._next_texture) 0
          else c._texture_filename_cache k := by
      intro k
      rw [hdc]
      simp only [writeChars_apply, List.length_append, List.length_singleton]
    have hnew : d.cache.entry c._next_texture = t.filename := by
      unfold TextureCache.entry Texture.filename
      apply readChars_written _ _ _ _ (cstring_nonzero _) hshort'
      · intro k hk
        rw [hmem, if_pos (by omega), Nat.add_sub_cancel_left]
        simp only [List.getD_eq_getElem?_getD]
        rw [List.getElem?_append_left hk]
      · rw [hmem, if_pos (by omega), Nat.add_sub_cancel_left]
        simp [List.getD_eq_getElem?_getD]
    have hold : ∀ i, i < c._next_texture → d.cache.entry i = c.entry i := by
      intro i hi
      unfold TextureCache.entry
      apply readChars_congr
      intro k hk1 hk2
      have : FILENAME_CHARS * i + FILENAME_CHARS ≤ FILENAME_CHARS * c._next_texture := by
        have := Nat.mul_le_mul_left FILENAME_CHARS (Nat.succ_le_of_lt hi)
        rwa [Nat.mul_succ] at this
      rw [hmem, if_neg (by omega)]
    refine ⟨d, hd, by omega, by rw [hidx]; exact hnew, hold, by rw [hdc]; exact ht, ?_, ?_, ?_⟩
    · refine ⟨fun h => absurd h (by rw [hdc]; exact ht), by omega, ?_, ?_⟩
      · intro i hi
        by_cases hi1 : i = c._next_texture
        · rw [hi1, hnew]; exact hshort
        · rw [hold i (by omega)]; exact hrowsok i (by omega)
      · intro a b ha hb hab
        rw [hnext] at ha hb
        by_cases h1 : a = c._next_texture <;> by_cases h2 : b = c._next_texture
        · omega
        · rw [h1, hnew, hold b (by omega)] at hab
          exact absurd hab.symm (hj3 b (Nat.zero_le _) (by omega))
        · rw [h2, hnew, hold a (by omega)] at hab
          exact absurd hab (hj3 a (Nat.zero_le _) (by omega))
        · rw [hold a (by omega), hold b (by omega)] at hab
          exact hdist a b (by omega) (by omega) hab
    · intro h; exact absurd h hnot
    · intro _
      exact ⟨hidx, hcalls, hnext⟩

/-- The call of `Define` for a name that is not cached when all `MAX_TEXTURES`
rows are taken has no result: it accesses row `MAX_TEXTURES`. -/
theorem Define_full (w : GLWorld) (c : TextureCache) (t : Texture) (hinv : CacheInv c)
    (hnot : ¬ c.isCached t.filename) (hfull : MAX_TEXTURES ≤ c._next_texture) :
    Texture.Define w c t = none := by
  obtain ⟨hz, hle, hrowsok, -⟩ := hinv
  obtain ⟨hn, hcache, -⟩ := createTextures_facts w c hz
  obtain ⟨j, hj, -, hj2, -, hj4⟩ :=
    findFilename_spec c._texture_filename_cache t.filename (cstring_nonzero _)
      c._next_texture 0 (by omega) (fun l _ hl => hrowsok l (by omega))
  rw [Nat.zero_add] at hj2 hj4
  have hjeq : j = c._next_texture := by
    by_contra hne
    exact hnot ⟨j, by omega, hj4 (by omega)⟩
  have hj' : findFilename (c.createTextures w)._texture_filename_cache
      (cstring t.bitmap_filename) (c.createTextures w)._next_texture 0
        = some (c.createTextures w)._next_texture := by
    rw [hcache, hn]; rw [hjeq] at hj; exact hj
  have hfull' : MAX_TEXTURES ≤ (c.createTextures w)._next_texture := by rw [hn]; exact hfull
  have hover : CACHE_CHARS < FILENAME_CHARS * (c.createTextures w)._next_texture
      + ((cstring t.bitmap_filename).length + 1) := by
    have := Nat.mul_le_mul_left FILENAME_CHARS hfull'
    simp only [CACHE_CHARS, MAX_TEXTURES, FILENAME_CHARS] at *
    omega
  by_cases hl : Texture.LoadBMP w t.bitmap_filename = true
  · simp [Texture.Define, hj', Texture.LoadBitmap, hl, hfull']
  · have hl' : Texture.LoadBMP w t.bitmap_filename = false := by simpa using hl
    simp [Texture.Define, hj', Texture.LoadBitmap, strcpy, hl', hover]

/-- A call of `Define` that has a result was made with the name cached or a
row free. -/
theorem Define_some_room (w : GLWorld) (c : TextureCache) (t : Texture) (d : Defined)
    (hinv : CacheInv c) (hd : Texture.Define w c t = some d) :
    c.isCached t.filename ∨ c._next_texture < MAX_TEXTURES := by
  by_cases hcached : c.isCached t.filename
  · exact Or.inl hcached
  · right
    by_contra hfull
    rw [Define_full w c t hinv hcached (by omega)] at hd
    cases hd

theorem CacheInv_initial : CacheInv TextureCache.initial :=
  ⟨fun _ => rfl, Nat.zero_le _, fun i hi => absurd hi (Nat.not_lt_zero i),
    fun i _ hi => absurd hi (Nat.not_lt_zero i)⟩

/-- Calls of `Define` for names shorter than a row keep the invariant. -/
theorem Steps_inv (w : GLWorld) {c c2 : TextureCache} (h : Steps w c c2) :
    CacheInv c → CacheInv c2 := by
  induction h with
  | refl => exact id
  | @define c1 d t _ hshort hd ih =>
    intro hc
    have hinv1 := ih hc
    obtain ⟨d1, hd1, -, -, -, -, hinv, -⟩ :=
      Define_step w c1 t hinv1 hshort (Define_some_room w c1 t d hinv1 hd)
    rw [hd] at hd1
    cases hd1
    exact hinv

/-- Every reachable cache state satisfies the invariant. -/
theorem Reachable_inv (w : GLWorld) {c : TextureCache} (h : Reachable w c) : CacheInv c :=
  Steps_inv w h CacheInv_initial

/-- Calls of `Define` after texture names were created keep the rows already
cached: their number does not shrink and their entries stay. -/
theorem Steps_keep (w : GLWorld) {c c2 : TextureCache} (h : Steps w c c2) :
    CacheInv c → c._textures ≠ 0 →
      c2._textures ≠ 0 ∧ c._next_texture ≤ c2._next_texture ∧
      ∀ i, i < c._next_texture → c2.entry i = c.entry i := by
  induction h with
  | refl => exact fun _ ht => ⟨ht, le_refl _, fun _ _ => rfl⟩
  | @define c1 d t hs hshort hd ih =>
    intro hc ht
    obtain ⟨ht1, hle1, hrows1⟩ := ih hc ht
    have hinv1 : CacheInv c1 := Steps_inv w hs hc
    obtain ⟨d1, hd1, -, -, hrows, htd, -, hin, hout⟩ :=
      Define_step w c1 t hinv1 hshort (Define_some_room w c1 t d hinv1 hd)
    rw [hd] at hd1
    cases hd1
    refine ⟨htd, ?_, ?_⟩
    · by_cases hcached : c1.isCached t.filename
      · rw [(hin hcached).2.2]; exact hle1
      · rw [(hout hcached).2.2]; omega
    · intro i hi
      rw [hrows i (by omega), hrows1 i hi]

/-- C9, as amended: for every cache state reached by calls of `Define` for file
names shorter than the 1024 chars of a row, and every texture whose file name
`f` is shorter than 1024 chars and is already cached or finds a row free
(`_next_texture < MAX_TEXTURES`), `Define` has a result and afterwards the
entry `_texture_filename_cache[texture_index]` is `f`. If `f` was among the
first `_next_texture` cached names, `texture_index` is the index of that entry,
`LoadBitmap` is not called and `_next_texture` is unchanged; otherwise
`texture_index` is the old `_next_texture`, `LoadBitmap` is called exactly once
and `_next_texture` grows by 1, whether or not the bitmap loads. The cached
names are pairwise distinct before and after, and every texture defined later
under the same name gets the same `texture_index`. -/
theorem Define_filename_cache (w : GLWorld) (c : TextureCache) (t : Texture)
    (hc : Reachable w c) (hshort : t.filename.length < FILENAME_CHARS)
    (hroom : c.isCached t.filename ∨ c._next_texture < MAX_TEXTURES) :
    ∃ d, Texture.Define w c t = some d ∧
      d.cache.entry d.texture.texture_index = t.filename ∧
      (c.isCached t.filename →
        d.texture.texture_index < c._next_texture ∧
        c.entry d.texture.texture_index = t.filename ∧
        loadBitmapCalls d.calls = 0 ∧ d.cache._next_texture = c._next_texture) ∧
      (¬ c.isCached t.filename →
        d.texture.texture_index = c._next_texture ∧ loadBitmapCalls d.calls = 1 ∧
        d.cache._next_texture = c._next_texture + 1) ∧
      c.distinct ∧ d.cache.distinct ∧
      (∀ c2 t2 d2, Steps w d.cache c2 → t2.filename = t.filename →
        Texture.Define w c2 t2 = some d2 →
        d2.texture.texture_index = d.texture.texture_index) := by
  have hinv := Reachable_inv w hc
  obtain ⟨d, hd, hidx, hname, hrows, htd, hinvd, hin, hout⟩ :=
    Define_step w c t hinv hshort hroom
  refine ⟨d, hd, hname, ?_, hout, hinv.2.2.2, hinvd.2.2.2, ?_⟩
  · intro hcached
    obtain ⟨h1, h2, h3⟩ := hin hcached
    refine ⟨h1, ?_, h2, h3⟩
    rw [← hrows _ h1]; exact hname
  · intro c2 t2 d2 hsteps hsame hd2
    obtain ⟨-, hle2, hrows2⟩ := Steps_keep w hsteps hinvd htd
    have hinv2 : CacheInv c2 := Steps_inv w hsteps hinvd
    have hcached2 : c2.isCached t2.filename :=
      ⟨d.texture.texture_index, by omega, by rw [hrows2 _ hidx, hname, hsame]⟩
    obtain ⟨d3, hd3, -, hname3, hrows3, -, -, hin3, -⟩ :=
      Define_step w c2 t2 hinv2 (by rw [hsame]; exact hshort) (Or.inl hcached2)
    rw [hd2] at hd3
    cases hd3
    obtain ⟨hlt3, -, -⟩ := hin3 hcached2
    apply hinv2.2.2.2 _ _ hlt3 (by omega)
    rw [← hrows3 _ hlt3, hname3, hrows2 _ hidx, hname, hsame]

/-! ### The full cache -/

theorem bitmapName_injective {a b : Nat} (h : bitmapName a = bitmapName b) : a = b := by
  have := congrArg List.length h
  simpa [bitmapName] using this

theorem cstring_bitmapName (k : Nat) : cstring (bitmapName k) = bitmapName k := by
  apply cstring_eq_self
  intro b hb
  simp only [bitmapName, List.mem_replicate] at hb
  omega

/-- The chars of a string made of one char `a`, `n` times, and its NUL. -/
theorem getD_replicate_nul (n a j : Nat) :
    (List.replicate n a ++ [0]).getD j 0 = if j < n then a else 0 := by
  rw [List.getD_eq_getElem?_getD]
  by_cases h : j < n
  · rw [List.getElem?_append_left (by simpa using h)]
    simp [h]
  · rw [List.getElem?_append_right (by simpa using h)]
    rw [if_neg h]
    cases hj : j - (List.replicate n a).length with
    | zero => simp
    | succ m => simp

theorem getD_bitmapName (k j : Nat) :
    (bitmapName k ++ [0]).getD j 0 = if j < k + 1 then 98 else 0 :=
  getD_replicate_nul (k + 1) 98 j

/-- Row `i` of the statics `filled k` holds `bitmapName i`. -/
theorem entry_filled (k i : Nat) (hi : i < k) (hk : k ≤ MAX_TEXTURES) :
    (TextureCache.filled k).entry i = bitmapName i := by
  unfold TextureCache.entry
  have hi200 : i < 200 := lt_of_lt_of_le hi hk
  apply readChars_written
  · intro b hb
    simp only [bitmapName, List.mem_replicate] at hb
    omega
  · simp only [bitmapName, List.length_replicate, FILENAME_CHARS]; omega
  · intro j hj
    simp only [bitmapName, List.length_replicate] at hj
    have h1 : (FILENAME_CHARS * i + j) / FILENAME_CHARS = i := by
      simp only [FILENAME_CHARS]; omega
    have h2 : (FILENAME_CHARS * i + j) % FILENAME_CHARS = j := by
      simp only [FILENAME_CHARS]; omega
    simp only [TextureCache.filled, h1, h2]
    rw [if_pos ⟨hi, by omega⟩, List.getD_eq_getElem?_getD]
    simp [bitmapName, hj]
  · simp only [bitmapName, List.length_replicate]
    have h1 : (FILENAME_CHARS * i + (i + 1)) / FILENAME_CHARS = i := by
      simp only [FILENAME_CHARS]; omega
    have h2 : (FILENAME_CHARS * i + (i + 1)) % FILENAME_CHARS = i + 1 := by
      simp only [FILENAME_CHARS]; omega
    simp only [TextureCache.filled, h1, h2]
    rw [if_neg (by omega)]

theorem createTextures_initial :
    TextureCache.initial.createTextures GLWorld.allLoad = TextureCache.filled 0 := by
  simp [TextureCache.createTextures, TextureCache.initial, TextureCache.filled,
    GLWorld.allLoad]

theorem createTextures_filled (k : Nat) :
    (TextureCache.filled k).createTextures GLWorld.allLoad = TextureCache.filled k := by
  simp [TextureCache.createTextures, TextureCache.filled, MAX_TEXTURES]

/-- The name `bitmapName k` is not cached in the statics `filled k`. -/
theorem not_isCached_filled (k : Nat) (hk : k ≤ MAX_TEXTURES) :
    ¬ (TextureCache.filled k).isCached (bitmapName k) := by
  rintro ⟨i, hi, hname⟩
  have hi' : i < k := hi
  rw [entry_filled k i hi' hk] at hname
  have := bitmapName_injective hname
  omega

/-- In the statics `filled k` the loop does not find `bitmapName k`. -/
theorem findFilename_filled (k : Nat) (hk : k ≤ MAX_TEXTURES) :
    findFilename (TextureCache.filled k)._texture_filename_cache (bitmapName k)
      (TextureCache.filled k)._next_texture 0 = some k := by
  have hnz : ∀ b ∈ bitmapName k, b ≠ 0 := by
    intro b hb
    simp only [bitmapName, List.mem_replicate] at hb
    omega
  obtain ⟨j, hj, -, hj2, -, hj4⟩ :=
    findFilename_spec (TextureCache.filled k)._texture_filename_cache (bitmapName k) hnz k 0
      (by omega) (fun l _ hl => by
        have hl' : l < k := by omega
        have := entry_filled k l hl' hk
        unfold TextureCache.entry at this
        rw [this]
        simp only [bitmapName, List.length_replicate, FILENAME_CHARS, MAX_TEXTURES] at *
        omega)
  rw [Nat.zero_add] at hj2 hj4
  have hjk : j = k := by
    by_contra hne
    have hlt : j < k := by omega
    exact not_isCached_filled k hk ⟨j, hlt, hj4 hlt⟩
  rw [hjk] at hj
  exact hj

/-- Defining `bitmapName k` on statics that the first block of `Define` turns
into `filled k`, with a row free, leaves `filled (k + 1)`. -/
theorem Define_filled (c : TextureCache) (k : Nat) (hk : k < MAX_TEXTURES)
    (hc : c.createTextures GLWorld.allLoad = TextureCache.filled k) :
    ∃ d, Texture.Define GLWorld.allLoad c (Texture.named (bitmapName k)) = some d ∧
      d.cache = TextureCache.filled (k + 1) := by
  have hf := findFilename_filled k (by omega)
  have hk200 : k < 200 := hk
  have hin := row_inside k hk
  obtain ⟨d, hd, hdc, -, -⟩ := Define_new GLWorld.allLoad c (Texture.named (bitmapName k))
    (by rw [hc]; simp only [Texture.named, cstring_bitmapName]; exact hf)
    (by rw [hc]; exact hk)
    (by
      rw [hc]
      simp only [Texture.named, cstring_bitmapName]
      simp only [bitmapName, List.length_replicate, TextureCache.filled]
      simp only [FILENAME_CHARS] at hin ⊢
      omega)
  refine ⟨d, hd, ?_⟩
  rw [hdc, hc]
  simp only [TextureCache.filled, Texture.named, cstring_bitmapName, TextureCache.mk.injEq,
    true_and, and_true]
  funext p
  rw [writeChars_apply, getD_bitmapName]
  simp only [List.length_append, List.length_singleton, bitmapName, List.length_replicate,
    FILENAME_CHARS]
  by_cases h1 : 1024 * k ≤ p ∧ p < 1024 * k + (k + 1 + 1)
  · rw [if_pos h1]
    by_cases h2 : p - 1024 * k < k + 1
    · rw [if_pos h2, if_pos (by omega)]
    · rw [if_neg h2, if_neg (by omega)]
  · rw [if_neg h1]
    by_cases h3 : p / 1024 < k ∧ p % 1024 ≤ p / 1024
    · rw [if_pos h3, if_pos (by omega)]
    · rw [if_neg h3, if_neg (by omega)]

/-- The statics `filled k` are reachable for every `1 <= k <= MAX_TEXTURES`. -/
theorem filled_reachable (k : Nat) (hk : k < MAX_TEXTURES) :
    Reachable GLWorld.allLoad (TextureCache.filled (k + 1)) := by
  have hshort : ∀ j, j < MAX_TEXTURES →
      (Texture.named (bitmapName j)).filename.length < FILENAME_CHARS := by
    intro j hj
    simp only [Texture.filename, Texture.named, cstring_bitmapName]
    simp only [bitmapName, List.length_replicate, FILENAME_CHARS, MAX_TEXTURES] at *
    omega
  induction k with
  | zero =>
    obtain ⟨d, hd, hcache⟩ := Define_filled TextureCache.initial 0 hk createTextures_initial
    have := Steps.define (Texture.named (bitmapName 0)) Steps.refl (hshort 0 hk) hd
    rw [hcache] at this
    exact this
  | succ k ih =>
    have hprev := ih (by omega)
    obtain ⟨d, hd, hcache⟩ :=
      Define_filled (TextureCache.filled (k + 1)) (k + 1) hk (createTextures_filled (k + 1))
    have := Steps.define (Texture.named (bitmapName (k + 1))) hprev (hshort (k + 1) hk) hd
    rw [hcache] at this
    exact this

/-! ### A name as long as a row -/

/-- The call of `Define` for a name that the loop does not find, on statics
whose texture names were created already. -/
theorem Define_new_next (w : GLWorld) (c : TextureCache) (t : Texture)
    (ht : c._textures ≠ 0)
    (hf : findFilename c._texture_filename_cache (cstring t.bitmap_filename)
      c._next_texture 0 = some c._next_texture)
    (hroom : c._next_texture < MAX_TEXTURES)
    (hfit : FILENAME_CHARS * c._next_texture + ((cstring t.bitmap_filename).length + 1)
      ≤ CACHE_CHARS) :
    ∃ d, Texture.Define w c t = some d ∧ d.cache._textures ≠ 0 ∧
      d.cache._next_texture = c._next_texture + 1 ∧
      d.cache._texture_filename_cache
        = writeChars (cstring t.bitmap_filename ++ [0]) (FILENAME_CHARS * c._next_texture)
            c._texture_filename_cache ∧
      d.texture.texture_index = c._next_texture := by
  have hcr : c.createTextures w = c := by simp [TextureCache.createTextures, ht]
  obtain ⟨d, hd, hdc, hdt, -⟩ := Define_new w c t (by rw [hcr]; exact hf)
    (by rw [hcr]; exact hroom) (by rw [hcr]; exact hfit)
  rw [hcr] at hdc hdt
  exact ⟨d, hd, by rw [hdc]; exact ht, by rw [hdc], by rw [hdc], by rw [hdt]⟩

theorem getD_replicate (n a k : Nat) (hk : k < n) : (List.replicate n a).getD k 0 = a := by
  rw [List.getD_eq_getElem?_getD]
  simp [hk]

/-- A string whose first char differs from the char at `p` is not the string
at `p`. -/
theorem strcmpEq_head_ne (cache : Nat → Nat) (b : Nat) (s : List Nat) (p : Nat)
    (hp : p < CACHE_CHARS) (h : cache p ≠ b) : strcmpEq cache (b :: s) p = some false := by
  have hc : ¬ CACHE_CHARS ≤ p := by omega
  simp only [strcmpEq, if_neg hc, if_neg h]

/-- Three calls of `Define` from the statics at program start: for a name of
1024 chars `a`, for the name of the one char `x`, and for the name of 1024 chars
`a` again. The NUL of the long name is written to the first char of the next
row, where the short name overwrites it, so that the long name is not found
again: the three textures get the indices 0, 1 and 2, and `_next_texture` is 3. -/
theorem long_name_run (a x : Nat) (ha : a ≠ 0) (hx : x ≠ 0) (hax : a ≠ x) :
    (DefineAll GLWorld.allLoad TextureCache.initial
        [Texture.named (List.replicate 1024 a), Texture.named [x],
         Texture.named (List.replicate 1024 a)]).map
      (fun r => (r.1._next_texture, r.2.map Texture.texture_index))
      = some (3, [0, 1, 2]) := by
  have hA : cstring (List.replicate 1024 a) = List.replicate 1024 a := by
    apply cstring_eq_self
    intro b hb
    rw [(List.mem_replicate.1 hb).2]; exact ha
  have hX : cstring [x] = [x] := cstring_eq_self _ (by simpa using hx)
  -- the first call
  obtain ⟨d1, hd1, hdc1, hdt1, -⟩ := Define_new GLWorld.allLoad TextureCache.initial
    (Texture.named (List.replicate 1024 a))
    (by rw [createTextures_initial]; rfl)
    (by rw [createTextures_initial]; decide)
    (by
      rw [createTextures_initial]
      simp only [Texture.named, hA, List.length_replicate, TextureCache.filled]
      decide)
  rw [createTextures_initial] at hdc1 hdt1
  have ht1 : d1.cache._textures ≠ 0 := by
    rw [hdc1]; show MAX_TEXTURES ≠ 0; decide
  have hn1 : d1.cache._next_texture = 1 := by rw [hdc1]; rfl
  have hi1 : d1.texture.texture_index = 0 := by rw [hdt1]; rfl
  have hm1 : ∀ k, d1.cache._texture_filename_cache k = if k < 1024 then a else 0 := by
    intro k
    rw [hdc1]
    simp only [Texture.named, hA, writeChars_apply, getD_replicate_nul, TextureCache.filled,
      List.length_append, List.length_replicate, List.length_singleton, FILENAME_CHARS]
    by_cases h1 : k < 1024
    · rw [if_pos (by omega), if_pos (by omega), if_pos h1]
    · by_cases h2 : k < 1025
      · rw [if_pos (by omega), if_neg (by omega), if_neg h1]
      · rw [if_neg (by omega), if_neg h1, if_neg (by omega)]
  -- the second call
  have hf2 : findFilename d1.cache._texture_filename_cache
      (cstring (Texture.named [x]).bitmap_filename) d1.cache._next_texture 0
        = some d1.cache._next_texture := by
    have h0 : d1.cache._texture_filename_cache 0 = a := by rw [hm1]; rfl
    have hrow0 : strcmpEq d1.cache._texture_filename_cache [x] (FILENAME_CHARS * 0)
        = some false :=
      strcmpEq_head_ne _ x [] _ (by decide) (by rw [Nat.mul_zero, h0]; exact hax)
    rw [hn1]
    simp only [Texture.named, hX, findFilename, hrow0]
  obtain ⟨d2, hd2, ht2, hn2, hm2, hi2⟩ := Define_new_next GLWorld.allLoad d1.cache
    (Texture.named [x]) ht1 hf2 (by rw [hn1]; decide)
    (by
      rw [hn1]
      simp only [Texture.named, hX, List.length_singleton, FILENAME_CHARS, CACHE_CHARS,
        MAX_TEXTURES]
      omega)
  rw [hn1] at hn2 hi2
  have hm2' : ∀ k, d2.cache._texture_filename_cache k
      = if k < 1024 then a else if k = 1024 then x else 0 := by
    intro k
    rw [hm2, hn1]
    simp only [Texture.named, hX, writeChars_apply, List.length_append,
      List.length_singleton, FILENAME_CHARS, hm1]
    by_cases h1 : k < 1024
    · rw [if_neg (by omega), if_pos h1, if_pos h1]
    · by_cases h2 : k = 1024
      · subst h2; simp
      · by_cases h3 : k = 1025
        · subst h3; simp
        · rw [if_neg (by omega), if_neg h1, if_neg h1, if_neg h2]
  -- the third call
  have hf3 : findFilename d2.cache._texture_filename_cache
      (cstring (Texture.named (List.replicate 1024 a)).bitmap_filename)
      d2.cache._next_texture 0 = some d2.cache._next_texture := by
    have hrow0 : strcmpEq d2.cache._texture_filename_cache (List.replicate 1024 a)
        (FILENAME_CHARS * 0) = some false := by
      rw [strcmpEq_matching]
      · simp only [List.length_replicate, FILENAME_CHARS, hm2']
        simp [hx]
      · intro k hk
        simp only [List.length_replicate] at hk
        rw [getD_replicate 1024 a k hk]
        simp only [FILENAME_CHARS, Nat.mul_zero, Nat.zero_add, hm2', if_pos hk]
      · simp only [List.length_replicate, FILENAME_CHARS, CACHE_CHARS, MAX_TEXTURES]
        omega
    have hrow1 : strcmpEq d2.cache._texture_filename_cache (List.replicate 1024 a)
        (FILENAME_CHARS * 1) = some false := by
      have h1024 : d2.cache._texture_filename_cache 1024 = x := by rw [hm2']; simp
      have hs : List.replicate 1024 a = a :: List.replicate 1023 a := rfl
      rw [hs]
      exact strcmpEq_head_ne _ a _ _ (by decide) (by
        show d2.cache._texture_filename_cache 1024 ≠ a
        rw [h1024]; exact Ne.symm hax)
    rw [hn2]
    simp only [Texture.named, hA, findFilename, hrow0, hrow1]
  obtain ⟨d3, hd3, -, hn3, -, hi3⟩ := Define_new_next GLWorld.allLoad d2.cache
    (Texture.named (List.replicate 1024 a)) ht2 hf3 (by rw [hn2]; decide)
    (by
      rw [hn2]
      simp only [Texture.named, hA, List.length_replicate]
      decide)
  rw [hn2] at hn3 hi3
  simp only [DefineAll, hd1, hd2, hd3, Option.map_some', List.map_cons, List.map_nil, hn3,
    hi1, hi2, hi3]

/-- C9, as stated, fails in two ways. When the cache is full: the statics
holding the `MAX_TEXTURES = 200` distinct names `bitmapName 0 .. bitmapName 199`
are reachable, `bitmapName 200` is not among them, and `Define` for a texture of
that name accesses row 200 of the 200-row arrays, so there is no entry
`_texture_filename_cache[texture_index]` that could equal the name. When a name
has as many chars as a row: of three textures defined at program start, the
first and the third under the same name of 1024 chars and the second under a
name of one char, the first gets `texture_index` 0 and the third 2. -/
theorem Define_filename_cache_counterexample :
    (Reachable GLWorld.allLoad (TextureCache.filled 200) ∧
      (TextureCache.filled 200)._next_texture = MAX_TEXTURES ∧
      ¬ (TextureCache.filled 200).isCached (Texture.named (bitmapName 200)).filename ∧
      Texture.Define GLWorld.allLoad (TextureCache.filled 200)
        (Texture.named (bitmapName 200)) = none) ∧
    ((Texture.named longName2).filename.length = FILENAME_CHARS ∧
      (DefineAll GLWorld.allLoad TextureCache.initial
          [Texture.named longName2, Texture.named shortName2, Texture.named longName2]).map
        (fun r => r.2.map Texture.texture_index) = some [0, 1, 2]) := by
  have hreach : Reachable GLWorld.allLoad (TextureCache.filled 200) :=
    filled_reachable 199 (by decide)
  have hnot : ¬ (TextureCache.filled 200).isCached (Texture.named (bitmapName 200)).filename := by
    have := not_isCached_filled 200 (by decide)
    simpa only [Texture.filename, Texture.named, cstring_bitmapName] using this
  have hlen : (Texture.named longName2).filename.length = FILENAME_CHARS := by
    have : cstring longName2 = longName2 := by
      apply cstring_eq_self
      intro b hb
      rw [(List.mem_replicate.1 hb).2]; decide
    simp only [Texture.filename, Texture.named, this]
    simp only [longName2, List.length_replicate, FILENAME_CHARS]
  have hrun := long_name_run 99 121 (by decide) (by decide) (by decide)
  refine ⟨⟨hreach, rfl, hnot,
    Define_full GLWorld.allLoad _ _ (Reachable_inv _ hreach) hnot (by decide)⟩, hlen, ?_⟩
  have hrun' : (DefineAll GLWorld.allLoad TextureCache.initial
      [Texture.named longName2, Texture.named shortName2, Texture.named longName2]).map
        (fun r => (r.1._next_texture, r.2.map Texture.texture_index))
      = some (3, [0, 1, 2]) := hrun
  cases hres : DefineAll GLWorld.allLoad TextureCache.initial
      [Texture.named longName2, Texture.named shortName2, Texture.named longName2] with
  | none => rw [hres] at hrun'; cases hrun'
  | some r =>
    rw [hres] at hrun'
    simp only [Option.map_some', Option.some.injEq, Prod.mk.injEq] at hrun' ⊢
    exact hrun'.2

/-- C9, as amended, at a concrete reachable state: two names are cached and a
texture with the second of them is defined. -/
theorem Define_filename_cache_witness :
    Reachable GLWorld.allLoad (TextureCache.filled 2) ∧
    (Texture.named (bitmapName 1)).filename.length < FILENAME_CHARS ∧
    (TextureCache.filled 2).isCached (Texture.named (bitmapName 1)).filename ∧
    ∃ d, Texture.Define GLWorld.allLoad (TextureCache.filled 2)
        (Texture.named (bitmapName 1)) = some d ∧
      d.cache.entry d.texture.texture_index = (Texture.named (bitmapName 1)).filename ∧
      ((TextureCache.filled 2).isCached (Texture.named (bitmapName 1)).filename →
        d.texture.texture_index < (TextureCache.filled 2)._next_texture ∧
        (TextureCache.filled 2).entry d.texture.texture_index
          = (Texture.named (bitmapName 1)).filename ∧
        loadBitmapCalls d.calls = 0 ∧
        d.cache._next_texture = (TextureCache.filled 2)._next_texture) ∧
      (¬ (TextureCache.filled 2).isCached (Texture.named (bitmapName 1)).filename →
        d.texture.texture_index = (TextureCache.filled 2)._next_texture ∧
        loadBitmapCalls d.calls = 1 ∧
        d.cache._next_texture = (TextureCache.filled 2)._next_texture + 1) ∧
      (TextureCache.filled 2).distinct ∧ d.cache.distinct ∧
      (∀ c2 t2 d2, Steps GLWorld.allLoad d.cache c2 →
        t2.filename = (Texture.named (bitmapName 1)).filename →
        Texture.Define GLWorld.allLoad c2 t2 = some d2 →
        d2.texture.texture_index = d.texture.texture_index) :=
  ⟨filled_reachable 1 (by decide), by decide, by decide,
    Define_filename_cache GLWorld.allLoad (TextureCache.filled 2)
      (Texture.named (bitmapName 1)) (filled_reachable 1 (by decide)) (by decide)
      (Or.inl (by decide))⟩

/-! ### Sequences of calls of `Define` -/

theorem isCached_iff_mem (c : TextureCache) (name : List Nat) :
    c.isCached name ↔ name ∈ c.cachedNames := by
  simp [TextureCache.isCached, TextureCache.cachedNames]

theorem card_cachedNames (c : TextureCache) (hd : c.distinct) :
    c.cachedNames.card = c._next_texture := by
  unfold TextureCache.cachedNames
  rw [Finset.card_image_of_injOn, Finset.card_range]
  intro a ha b hb hab
  exact hd a b (Finset.mem_range.1 (Finset.mem_coe.1 ha))
    (Finset.mem_range.1 (Finset.mem_coe.1 hb)) hab

/-- One call of `Define` adds the texture's name to the set of cached names. -/
theorem Define_cachedNames (w : GLWorld) (c : TextureCache) (t : Texture)
    (hinv : CacheInv c) (hshort : t.filename.length < FILENAME_CHARS)
    (hroom : c.isCached t.filename ∨ c._next_texture < MAX_TEXTURES) :
    ∃ d, Texture.Define w c t = some d ∧ CacheInv d.cache ∧
      d.cache.cachedNames = insert t.filename c.cachedNames ∧
      d.texture.texture_index < d.cache._next_texture ∧
      c._next_texture ≤ d.cache._next_texture := by
  obtain ⟨d, hd, hidx, hname, hrows, -, hinvd, hin, hout⟩ :=
    Define_step w c t hinv hshort hroom
  have himg : ∀ n, n ≤ c._next_texture →
      (Finset.range n).image d.cache.entry = (Finset.range n).image c.entry := by
    intro n hn
    apply Finset.image_congr
    intro i hi
    exact hrows i (lt_of_lt_of_le (Finset.mem_range.1 (Finset.mem_coe.1 hi)) hn)
  by_cases hcached : c.isCached t.filename
  · obtain ⟨-, -, hnext⟩ := hin hcached
    refine ⟨d, hd, hinvd, ?_, hidx, by omega⟩
    rw [Finset.insert_eq_of_mem ((isCached_iff_mem c _).1 hcached)]
    unfold TextureCache.cachedNames
    rw [hnext, himg _ (le_refl _)]
  · obtain ⟨hi, -, hnext⟩ := hout hcached
    refine ⟨d, hd, hinvd, ?_, hidx, by omega⟩
    unfold TextureCache.cachedNames
    rw [hnext, Finset.range_succ, Finset.image_insert, himg _ (le_refl _), ← hi, hname]

/-- A sequence of calls of `Define` for names shorter than a row on statics
that satisfy the invariant, when the names cached and the names of the
sequence are at most `MAX_TEXTURES` together. -/
theorem DefineAll_spec (w : GLWorld) (ts : List Texture) :
    ∀ c : TextureCache, CacheInv c →
      (∀ t ∈ ts, t.filename.length < FILENAME_CHARS) →
      (c.cachedNames ∪ (ts.map Texture.filename).toFinset).card ≤ MAX_TEXTURES →
      ∃ c1 ts1, DefineAll w c ts = some (c1, ts1) ∧ CacheInv c1 ∧
        c1.cachedNames = c.cachedNames ∪ (ts.map Texture.filename).toFinset ∧
        ts1.length = ts.length ∧ c._next_texture ≤ c1._next_texture ∧
        ∀ t ∈ ts1, t.texture_index < c1._next_texture := by
  induction ts with
  | nil =>
    intro c hinv _ _
    exact ⟨c, [], rfl, hinv, by simp, rfl, le_refl _, by simp⟩
  | cons t rest ih =>
    intro c hinv hshort hcard
    have hunion : c.cachedNames ∪ ((t :: rest).map Texture.filename).toFinset
        = insert t.filename c.cachedNames ∪ (rest.map Texture.filename).toFinset := by
      ext x; simp only [List.map_cons, List.toFinset_cons, Finset.mem_union,
        Finset.mem_insert]; tauto
    rw [hunion] at hcard ⊢
    have hroom : c.isCached t.filename ∨ c._next_texture < MAX_TEXTURES := by
      by_cases hcached : c.isCached t.filename
      · exact Or.inl hcached
      · right
        have hnot : t.filename ∉ c.cachedNames :=
          fun h => hcached ((isCached_iff_mem c _).2 h)
        have h1 : (insert t.filename c.cachedNames).card = c._next_texture + 1 := by
          rw [Finset.card_insert_of_not_mem hnot, card_cachedNames c hinv.2.2.2]
        have hsub : insert t.filename c.cachedNames
            ⊆ insert t.filename c.cachedNames ∪ (rest.map Texture.filename).toFinset :=
          Finset.subset_union_left
        have h2 := Finset.card_le_card hsub
        omega
    obtain ⟨d, hd, hinvd, hnames, hidx, hle⟩ :=
      Define_cachedNames w c t hinv (hshort t (by simp)) hroom
    obtain ⟨c1, ts1, hrun, hinv1, hnames1, hlen, hle1, hall⟩ :=
      ih d.cache hinvd (fun x hx => hshort x (by simp [hx])) (by rw [hnames]; exact hcard)
    refine ⟨c1, d.texture :: ts1, ?_, hinv1, by rw [hnames1, hnames], by simp [hlen],
      by omega, ?_⟩
    · simp [DefineAll, hd, hrun]
    · intro x hx
      rcases List.mem_cons.1 hx with h | h
      · rw [h]; omega
      · exact hall x h

/-- C10, as amended: for every sequence of calls of `Define` that starts from
statics with `_next_texture = 0` (those at program start, where also
`_textures = 0`, among them) and uses at most `MAX_TEXTURES = 200` distinct file
names, each of them shorter than the 1024 chars of a row, every call has a
result (no char of `_texture_filename_cache` and no entry of `_texture_list`
outside the arrays is accessed), every `texture_index` assigned is below
`MAX_TEXTURES`, `_next_texture` is the number of distinct names and at most
`MAX_TEXTURES` (also after every initial part of the sequence), and `Use` of
each texture reads `_texture_list` inside the array. -/
theorem DefineAll_within_arrays (w : GLWorld) (c0 : TextureCache) (ts : List Texture)
    (h1 : c0._next_texture = 0)
    (hshort : ∀ t ∈ ts, t.filename.length < FILENAME_CHARS)
    (hts : (ts.map Texture.filename).toFinset.card ≤ MAX_TEXTURES) :
    ∃ c ts1, DefineAll w c0 ts = some (c, ts1) ∧ ts1.length = ts.length ∧
      (∀ t ∈ ts1, t.texture_index < MAX_TEXTURES) ∧
      c._next_texture = (ts.map Texture.filename).toFinset.card ∧
      c._next_texture ≤ MAX_TEXTURES ∧
      (∀ t ∈ ts1, (Texture.Use c t).isSome = true) ∧
      (∀ k, ∃ ck tsk, DefineAll w c0 (ts.take k) = some (ck, tsk) ∧
        ck._next_texture = ((ts.take k).map Texture.filename).toFinset.card ∧
        ck._next_texture ≤ MAX_TEXTURES ∧
        ∀ t ∈ tsk, t.texture_index < MAX_TEXTURES) := by
  have hinv0 : CacheInv c0 :=
    ⟨fun _ => h1, by omega, fun i hi => absurd hi (by omega),
      fun i j hi => absurd hi (by omega)⟩
  have hempty : c0.cachedNames = ∅ := by
    simp [TextureCache.cachedNames, h1]
  have key : ∀ l : List Texture, (∀ t ∈ l, t.filename.length < FILENAME_CHARS) →
      (l.map Texture.filename).toFinset.card ≤ MAX_TEXTURES →
      ∃ c ts1, DefineAll w c0 l = some (c, ts1) ∧ ts1.length = l.length ∧
        (∀ t ∈ ts1, t.texture_index < MAX_TEXTURES) ∧
        c._next_texture = (l.map Texture.filename).toFinset.card ∧
        c._next_texture ≤ MAX_TEXTURES := by
    intro l hsl hl
    obtain ⟨c, ts1, hrun, hinv, hnames, hlen, -, hall⟩ :=
      DefineAll_spec w l c0 hinv0 hsl (by rw [hempty, Finset.empty_union]; exact hl)
    rw [hempty, Finset.empty_union] at hnames
    refine ⟨c, ts1, hrun, hlen, fun t ht => lt_of_lt_of_le (hall t ht) hinv.2.1, ?_,
      hinv.2.1⟩
    rw [← hnames, card_cachedNames c hinv.2.2.2]
  obtain ⟨c, ts1, hrun, hlen, hall, hnext, hle⟩ := key ts hshort hts
  refine ⟨c, ts1, hrun, hlen, hall, hnext, hle, ?_, ?_⟩
  · intro t ht
    have := hall t ht
    unfold Texture.Use
    by_cases hti : t.TextureImage = true
    · simp [hti, Nat.not_le.2 this]
    · simp [hti]
  · intro k
    have hsub : ((ts.take k).map Texture.filename).toFinset
        ⊆ (ts.map Texture.filename).toFinset := by
      intro x hx
      simp only [List.mem_toFinset, List.mem_map] at hx ⊢
      obtain ⟨a, ha, hax⟩ := hx
      exact ⟨a, List.mem_of_mem_take ha, hax⟩
    obtain ⟨ck, tsk, hrunk, -, hallk, hnextk, hlek⟩ :=
      key (ts.take k) (fun t ht => hshort t (List.mem_of_mem_take ht))
        (le_trans (Finset.card_le_card hsub) hts)
    exact ⟨ck, tsk, hrunk, hnextk, hlek, hallk⟩

/-- C10, as stated, fails for a file name that has as many chars as a row:
three textures are defined at program start, the first and the third under the
same name of 1024 chars and the second under a name of one char. These are 2
distinct file names, but the three textures get the indices 0, 1 and 2 and
`_next_texture` ends as 3. -/
theorem DefineAll_long_name_counterexample :
    (Texture.named longName).filename.length = FILENAME_CHARS ∧
    (([Texture.named longName, Texture.named shortName,
        Texture.named longName]).map Texture.filename).toFinset.card = 2 ∧
    2 ≤ MAX_TEXTURES ∧
    (DefineAll GLWorld.allLoad TextureCache.initial
        [Texture.named longName, Texture.named shortName, Texture.named longName]).map
      (fun r => (r.1._next_texture, r.2.map Texture.texture_index))
      = some (3, [0, 1, 2]) := by
  have hL : cstring longName = longName := by
    apply cstring_eq_self
    intro b hb
    rw [(List.mem_replicate.1 hb).2]; decide
  have hS : cstring shortName = shortName := by decide
  have hne : longName ≠ shortName := by
    intro h
    have := congrArg List.length h
    simp only [longName, shortName, List.length_replicate, List.length_singleton] at this
    omega
  refine ⟨?_, ?_, by decide, long_name_run 97 120 (by decide) (by decide) (by decide)⟩
  · simp only [Texture.filename, Texture.named, hL]
    simp only [longName, List.length_replicate, FILENAME_CHARS]
  · have hfL : (Texture.named longName).filename = longName := hL
    have hfS : (Texture.named shortName).filename = shortName := hS
    have h1 : shortName ∉ insert longName (∅ : Finset (List Nat)) := by
      intro h
      rcases Finset.mem_insert.1 h with h | h
      · exact hne h.symm
      · exact absurd h (Finset.not_mem_empty _)
    rw [List.map_cons, List.map_cons, List.map_cons, List.map_nil, hfL, hfS,
      List.toFinset_cons, List.toFinset_cons, List.toFinset_cons, List.toFinset_nil,
      Finset.card_insert_of_mem (Finset.mem_insert_of_mem (Finset.mem_insert_self _ _)),
      Finset.card_insert_of_not_mem h1,
      Finset.card_insert_of_not_mem (Finset.not_mem_empty _), Finset.card_empty]

/-- C10, as amended, at a concrete sequence: three textures, two of them with
the same name, defined from the statics at program start. -/
theorem DefineAll_within_arrays_witness :
    TextureCache.initial._textures = 0 ∧ TextureCache.initial._next_texture = 0 ∧
    (∀ t ∈ [Texture.named floorBmp, Texture.named wallBmp, Texture.named floorBmp],
      t.filename.length < FILENAME_CHARS) ∧
    (([Texture.named floorBmp, Texture.named wallBmp,
        Texture.named floorBmp]).map Texture.filename).toFinset.card ≤ MAX_TEXTURES ∧
    ∃ c ts1, DefineAll GLWorld.allLoad TextureCache.initial
        [Texture.named floorBmp, Texture.named wallBmp, Texture.named floorBmp]
          = some (c, ts1) ∧
      ts1.length = [Texture.named floorBmp, Texture.named wallBmp,
        Texture.named floorBmp].length ∧
      (∀ t ∈ ts1, t.texture_index < MAX_TEXTURES) ∧
      c._next_texture = (([Texture.named floorBmp, Texture.named wallBmp,
        Texture.named floorBmp]).map Texture.filename).toFinset.card ∧
      c._next_texture ≤ MAX_TEXTURES ∧
      (∀ t ∈ ts1, (Texture.Use c t).isSome = true) ∧
      (∀ k, ∃ ck tsk, DefineAll GLWorld.allLoad TextureCache.initial
          (([Texture.named floorBmp, Texture.named wallBmp,
            Texture.named floorBmp]).take k) = some (ck, tsk) ∧
        ck._next_texture = ((([Texture.named floorBmp, Texture.named wallBmp,
          Texture.named floorBmp]).take k).map Texture.filename).toFinset.card ∧
        ck._next_texture ≤ MAX_TEXTURES ∧
        ∀ t ∈ tsk, t.texture_index < MAX_TEXTURES) :=
  ⟨rfl, rfl, by decide, by decide,
    DefineAll_within_arrays GLWorld.allLoad TextureCache.initial _ rfl (by decide)
      (by decide)⟩

end Grasp
